import Mathlib

/-!
Verification development for the comparable-property extraction and
template-substitution core (files comp2.py and both4.py of the repository).

The Python code is shallowly embedded: text is a list of characters,
Python regular expressions are interpreted by a small backtracking engine
faithful to the re module semantics (leftmost match, greedy and lazy
repetition, ordered alternation, optional groups, MULTILINE and plain
end anchors), and each function of the source is translated definition by
definition.  All definitions are executable; fuel parameters appear only
as structural-termination devices and are always instantiated large
enough to never run out.
-/

set_option maxRecDepth 1000000
set_option maxHeartbeats 4000000

namespace PPCode

/-- Text is modelled as a list of characters (Python str). -/
abbrev Str := List Char

/-! ## Regular-expression engine (Python re semantics) -/

/-- Syntax of the regular expressions used by comp2.py and both4.py:
literals (case-sensitive and case-insensitive for the IGNORECASE flag),
character-class repetitions with a minimum and optional maximum count and
a greedy/lazy flag, capture groups, optional (greedy) non-capturing
groups, ordered alternation, the MULTILINE end-of-line anchor, and the
plain end-of-string anchor (which in Python also matches just before a
single trailing newline). -/
inductive RE where
  | lit : Str → RE
  | litCI : Str → RE
  | cls : (Char → Bool) → Nat → Option Nat → Bool → RE
  | grp : Nat → List RE → RE
  | opt : List RE → RE
  | alt : List RE → List RE → RE
  | eolM : RE
  | eosNL : RE

/-- Case-insensitive character comparison, for the re.IGNORECASE flag. -/
def lowerEq (a b : Char) : Bool := a.toLower == b.toLower

/-- Case-insensitive list comparison (false when lengths differ). -/
def listLowerEq : Str → Str → Bool
  | [], [] => true
  | a :: as, b :: bs => lowerEq a b && listLowerEq as bs
  | _, _ => false

/-- Length of the maximal run of characters satisfying p at the front. -/
def takeRun (p : Char → Bool) : Str → Nat
  | [] => 0
  | c :: cs => if p c then takeRun p cs + 1 else 0

/-- Candidate repetition counts in backtracking priority order: greedy
repetition tries the longest run first, lazy the shortest. -/
def clsCounts (lo hi : Nat) (greedy : Bool) : List Nat :=
  let asc := (List.range (hi + 1 - lo)).map (lo + ·)
  if greedy then asc.reverse else asc

/-- All ways a regex list matches a prefix of s, in Python backtracking
priority order; each result is (rest of input, captures).  The fuel only
bounds recursion into the regex structure, never into the string, so any
fuel at least the size of the regex term yields the complete match list;
every call site uses fuel 1000, far above the size of every regex below. -/
def mtch : Nat → List RE → Str → List (Nat × Str) → List (Str × List (Nat × Str))
  | 0, _, _, _ => []
  | _ + 1, [], s, caps => [(s, caps)]
  | fuel + 1, .lit l :: rest, s, caps =>
      if l.isPrefixOf s then mtch fuel rest (s.drop l.length) caps else []
  | fuel + 1, .litCI l :: rest, s, caps =>
      if listLowerEq l (s.take l.length) then mtch fuel rest (s.drop l.length) caps else []
  | fuel + 1, .cls p lo hi greedy :: rest, s, caps =>
      let run := takeRun p s
      let run := match hi with | some h => min run h | none => run
      if run < lo then []
      else (clsCounts lo run greedy).flatMap fun n => mtch fuel rest (s.drop n) caps
  | fuel + 1, .grp i body :: rest, s, caps =>
      (mtch fuel body s caps).flatMap fun pr =>
        mtch fuel rest pr.1 ((i, s.take (s.length - pr.1.length)) :: pr.2)
  | fuel + 1, .opt body :: rest, s, caps =>
      ((mtch fuel body s caps).flatMap fun pr => mtch fuel rest pr.1 pr.2) ++ mtch fuel rest s caps
  | fuel + 1, .alt a b :: rest, s, caps =>
      ((mtch fuel a s caps).flatMap fun pr => mtch fuel rest pr.1 pr.2) ++
      ((mtch fuel b s caps).flatMap fun pr => mtch fuel rest pr.1 pr.2)
  | fuel + 1, .eolM :: rest, s, caps =>
      match s with
      | [] => mtch fuel rest s caps
      | '\n' :: _ => mtch fuel rest s caps
      | _ => []
  | fuel + 1, .eosNL :: rest, s, caps =>
      match s with
      | [] => mtch fuel rest s caps
      | ['\n'] => mtch fuel rest s caps
      | _ => []

/-- First (highest-priority) match of the regex at the start of s. -/
def mtchAt (re : List RE) (s : Str) : Option (Str × List (Nat × Str)) :=
  (mtch 1000 re s []).head?

/-- Result of re.search: the text before the match, the matched text,
the text after the match, and the captured groups. -/
structure MatchRes where
  pre : Str
  matched : Str
  rest : Str
  caps : List (Nat × Str)

/-- Python re.search: try the regex at each position from the left and
return the first position where it matches. -/
def reSearch (re : List RE) : Str → Option MatchRes
  | [] =>
    match mtchAt re [] with
    | some (rest, caps) => some ⟨[], [], rest, caps⟩
    | none => none
  | c :: cs =>
    match mtchAt re (c :: cs) with
    | some (rest, caps) =>
      some ⟨[], (c :: cs).take ((c :: cs).length - rest.length), rest, caps⟩
    | none =>
      match reSearch re cs with
      | some m => some ⟨c :: m.pre, m.matched, m.rest, m.caps⟩
      | none => none

/-- Value of a captured group (None when the group did not participate). -/
def grpGet (caps : List (Nat × Str)) (i : Nat) : Option Str :=
  match caps.find? (fun pr => pr.1 == i) with
  | some pr => some pr.2
  | none => none

/-- Python whitespace class backslash-s. -/
def isWsChar (c : Char) : Bool :=
  c == ' ' || c == '\t' || c == '\n' || c == '\r' || c == '\x0b' || c == '\x0c'

def isDigitChar (c : Char) : Bool := c.isDigit

/-- Python word class: letters, digits and underscore. -/
def isWordChar (c : Char) : Bool := c.isAlphanum || c == '_'

/-- Python re.sub with empty replacement: scan from the left, skip each
(nonempty) match and keep unmatched characters.  One fuel unit is spent
per step and every step consumes at least one character, so fuel
s.length realizes re.sub exactly; the guard on the match consuming at
least one character is a termination device only, as no pattern passed
to this function matches the empty string. -/
def reSubAllGo (re : List RE) : Nat → Str → Str
  | _, [] => []
  | 0, s => s
  | fuel + 1, c :: cs =>
    match mtchAt re (c :: cs) with
    | some (rest, _) =>
      if rest.length < (c :: cs).length then reSubAllGo re fuel rest
      else c :: reSubAllGo re fuel cs
    | none => c :: reSubAllGo re fuel cs

def reSubAll (re : List RE) (s : Str) : Str := reSubAllGo re s.length s

/-- True when re.search would find a match somewhere in s. -/
def reFound (re : List RE) : Str → Bool
  | [] => (mtchAt re []).isSome
  | c :: cs => (mtchAt re (c :: cs)).isSome || reFound re cs

/-! ## Python string primitives -/

/-- Python substring test (needle in hay). -/
def containsSub (needle : Str) : Str → Bool
  | [] => needle.isPrefixOf []
  | c :: cs => needle.isPrefixOf (c :: cs) || containsSub needle cs

/-- Python str.strip(): remove leading and trailing whitespace. -/
def pyStrip (s : Str) : Str :=
  ((s.dropWhile isWsChar).reverse.dropWhile isWsChar).reverse

/-- Python str.lower(). -/
def lowerStr (s : Str) : Str := s.map Char.toLower

/-- Python str.split on a newline. -/
def splitNL : Str → List Str
  | [] => [[]]
  | c :: cs =>
    if c == '\n' then [] :: splitNL cs
    else
      match splitNL cs with
      | [] => [[c]]
      | l :: ls => (c :: l) :: ls

/-- Python str.replace(kw, val): replace every non-overlapping occurrence
from the left, never rescanning inserted text.  Fuel as in reSubAllGo;
the source never calls replace with an empty pattern. -/
def strReplaceAllGo (kw val : Str) : Nat → Str → Str
  | _, [] => []
  | 0, s => s
  | fuel + 1, c :: cs =>
    if !kw.isEmpty && kw.isPrefixOf (c :: cs) then
      val ++ strReplaceAllGo kw val fuel ((c :: cs).drop kw.length)
    else c :: strReplaceAllGo kw val fuel cs

def strReplaceAll (kw val s : Str) : Str := strReplaceAllGo kw val s.length s

/-- Python str.find for a contained pattern: index of first occurrence. -/
def findSub (sub : Str) : Str → Option Nat
  | [] => if sub.isPrefixOf [] then some 0 else none
  | c :: cs =>
    if sub.isPrefixOf (c :: cs) then some 0
    else (findSub sub cs).map (· + 1)

/-- Python space-join of a list of strings. -/
def joinSpace : List Str → Str
  | [] => []
  | [l] => l
  | l :: ls => l ++ [' '] ++ joinSpace ls

/-- Python int() on a nonempty digit string. -/
def natOfDigits (l : Str) : Nat :=
  l.foldl (fun n c => n * 10 + (c.toNat - 48)) 0

/-! ## The regular expressions of comp2.py -/

/-- comp2.py line 107, the record heading:
(backslash-d+)[.] s+ Sold Land (Property|Space) ( s* [(] not-) + [)] )? s* (not-newline)* -/
def comp_pattern : List RE :=
  [ .grp 1 [.cls isDigitChar 1 none true], .lit ['.'],
    .cls isWsChar 1 none true,
    .lit "Sold Land ".data,
    .alt [.lit "Property".data] [.lit "Space".data],
    .opt [.cls isWsChar 0 none true, .lit ['('], .cls (fun c => c != ')') 1 none true, .lit [')']],
    .cls isWsChar 0 none true,
    .grp 2 [.cls (fun c => c != '\n') 0 none true] ]

/-- comp2.py line 324, the per-page heading test used for image association. -/
def heading_simple_re : List RE :=
  [ .cls isDigitChar 1 none true, .lit ['.'],
    .cls isWsChar 1 none true,
    .lit "Sold Land ".data,
    .alt [.lit "Property".data] [.lit "Space".data] ]

/-- comp2.py line 95: All information contained herein .*? Page d+ of d+ (DOTALL). -/
def clean1_re : List RE :=
  [ .lit "All information contained herein".data,
    .cls (fun _ => true) 0 none false,
    .lit "Page ".data, .cls isDigitChar 1 none true,
    .lit " of ".data, .cls isDigitChar 1 none true ]

/-- comp2.py line 96: the literal report banner. -/
def clean2_re : List RE := [.lit "Land Comp Summary Report".data]

/-- comp2.py line 97: July d+, dddd. -/
def clean3_re : List RE :=
  [ .lit "July ".data, .cls isDigitChar 1 none true,
    .lit ", ".data, .cls isDigitChar 4 (some 4) true ]

/-- comp2.py line 98: Colliers s* newline. -/
def clean4_re : List RE :=
  [ .lit "Colliers".data, .cls isWsChar 0 none true, .lit ['\n'] ]

/-- comp2.py line 137: System ID: s* d+ [)] s* (not-newline +). -/
def sysid_re : List RE :=
  [ .lit "System ID:".data, .cls isWsChar 0 none true,
    .cls isDigitChar 1 none true, .lit [')'], .cls isWsChar 0 none true,
    .grp 1 [.cls (fun c => c != '\n') 1 none true] ]

/-- comp2.py line 142: Primary Use: s* (not-newline +). -/
def primaryuse_re : List RE :=
  [ .lit "Primary Use:".data, .cls isWsChar 0 none true,
    .grp 1 [.cls (fun c => c != '\n') 1 none true] ]

/-- comp2.py line 150: Market: s* (lazily, not slash or newline +?)
followed by an optional s* / s* Sub-Market: s* (not-newline +). -/
def market_re : List RE :=
  [ .lit "Market:".data, .cls isWsChar 0 none true,
    .grp 1 [.cls (fun c => c != '/' && c != '\n') 1 none false],
    .opt [.cls isWsChar 0 none true, .lit ['/'], .cls isWsChar 0 none true,
          .lit "Sub-Market:".data, .cls isWsChar 0 none true,
          .grp 2 [.cls (fun c => c != '\n') 1 none true]] ]

def isDigitComma (c : Char) : Bool := c.isDigit || c == ','
def isDigitDot (c : Char) : Bool := c.isDigit || c == '.'
def isDigitCommaDot (c : Char) : Bool := c.isDigit || c == ',' || c == '.'
def notNL (c : Char) : Bool := c != '\n'

/-- comp2.py line 157 (IGNORECASE): Comp SF: s* ([0-9,]+ ( s* SF)?). -/
def compsf_re : List RE :=
  [ .litCI "Comp SF:".data, .cls isWsChar 0 none true,
    .grp 1 [.cls isDigitComma 1 none true, .opt [.cls isWsChar 0 none true, .litCI "SF".data]] ]

/-- comp2.py line 158 (IGNORECASE): Acres: s* ([0-9.]+ ( s* Acres)?). -/
def acres_re : List RE :=
  [ .litCI "Acres:".data, .cls isWsChar 0 none true,
    .grp 1 [.cls isDigitDot 1 none true, .opt [.cls isWsChar 0 none true, .litCI "Acres".data]] ]

/-- comp2.py line 159 (IGNORECASE): Sale Price: s* ($ [0-9,]+). -/
def saleprice_re : List RE :=
  [ .litCI "Sale Price:".data, .cls isWsChar 0 none true,
    .grp 1 [.lit ['$'], .cls isDigitComma 1 none true] ]

/-- comp2.py line 160 (IGNORECASE): Sale Price/SF: s* ($ [0-9,.]+). -/
def salepricesf_re : List RE :=
  [ .litCI "Sale Price/SF:".data, .cls isWsChar 0 none true,
    .grp 1 [.lit ['$'], .cls isDigitCommaDot 1 none true] ]

/-- comp2.py line 161 (IGNORECASE): Sale Price/Acres: s* ($ [0-9,.]+). -/
def salepriceacres_re : List RE :=
  [ .litCI "Sale Price/Acres:".data, .cls isWsChar 0 none true,
    .grp 1 [.lit ['$'], .cls isDigitCommaDot 1 none true] ]

/-- comp2.py line 162 (IGNORECASE, MULTILINE): Zoning: s* (lazy not-newline +?)
then ( s* Off-Market: | end-of-line ). -/
def zoning_re : List RE :=
  [ .litCI "Zoning:".data, .cls isWsChar 0 none true,
    .grp 1 [.cls notNL 1 none false],
    .alt [.cls isWsChar 0 none true, .litCI "Off-Market:".data] [.eolM] ]

/-- comp2.py line 163 (IGNORECASE, MULTILINE): Parcel #: s* (lazy not-newline +?)
then ( s* Lot Dimensions: | end-of-line ). -/
def parcel_re : List RE :=
  [ .litCI "Parcel #:".data, .cls isWsChar 0 none true,
    .grp 1 [.cls notNL 1 none false],
    .alt [.cls isWsChar 0 none true, .litCI "Lot Dimensions:".data] [.eolM] ]

/-- comp2.py line 164 (IGNORECASE): Off-Market: s* (dd/dd/dddd). -/
def offmarket_re : List RE :=
  [ .litCI "Off-Market:".data, .cls isWsChar 0 none true,
    .grp 1 [.cls isDigitChar 2 (some 2) true, .lit ['/'],
            .cls isDigitChar 2 (some 2) true, .lit ['/'],
            .cls isDigitChar 4 (some 4) true] ]

/-- comp2.py line 165 (IGNORECASE): Months on Market: s* (d+). -/
def months_re : List RE :=
  [ .litCI "Months on Market:".data, .cls isWsChar 0 none true,
    .grp 1 [.cls isDigitChar 1 none true] ]

/-- comp2.py line 166 (IGNORECASE, MULTILINE): Topography: s* (lazy not-newline +?)
then ( s* Land Conditions: | end-of-line ). -/
def topo_re : List RE :=
  [ .litCI "Topography:".data, .cls isWsChar 0 none true,
    .grp 1 [.cls notNL 1 none false],
    .alt [.cls isWsChar 0 none true, .litCI "Land Conditions:".data] [.eolM] ]

/-- comp2.py line 189, address method 1 (case-sensitive):
(d+ [^,newline]+ , s* [^,newline]+ , s* [A-Z][A-Z] s+ ddddd). -/
def fulladdr_re : List RE :=
  [ .grp 1 [.cls isDigitChar 1 none true,
            .cls (fun c => c != ',' && c != '\n') 1 none true, .lit [','],
            .cls isWsChar 0 none true,
            .cls (fun c => c != ',' && c != '\n') 1 none true, .lit [','],
            .cls isWsChar 0 none true,
            .cls (fun c => 'A' ≤ c && c ≤ 'Z') 2 (some 2) true,
            .cls isWsChar 1 none true,
            .cls isDigitChar 5 (some 5) true] ]

/-- comp2.py line 225 (case-sensitive): , s* [A-Z][A-Z] s+ ddddd. -/
def cityzip_re : List RE :=
  [ .lit [','], .cls isWsChar 0 none true,
    .cls (fun c => 'A' ≤ c && c ≤ 'Z') 2 (some 2) true,
    .cls isWsChar 1 none true, .cls isDigitChar 5 (some 5) true ]

/-- comp2.py line 248 (MULTILINE), first party pattern for a given role
heading: role s* newline s* (lazy not-newline +?) then (newline | end-of-line). -/
def party1_re (pt : Str) : List RE :=
  [ .lit pt, .cls isWsChar 0 none true, .lit ['\n'], .cls isWsChar 0 none true,
    .grp 1 [.cls notNL 1 none false],
    .alt [.lit ['\n']] [.eolM] ]

/-- comp2.py line 258 (no flags), alternative party pattern:
role s+ (lazy not-newline +?) then ( s+ Role | s+ Company | s+ Listing |
 s+ Procuring | newline | end-of-string ). -/
def party2_re (pt : Str) : List RE :=
  [ .lit pt, .cls isWsChar 1 none true,
    .grp 1 [.cls notNL 1 none false],
    .alt [.cls isWsChar 1 none true, .lit "Role".data]
      [.alt [.cls isWsChar 1 none true, .lit "Company".data]
        [.alt [.cls isWsChar 1 none true, .lit "Listing".data]
          [.alt [.cls isWsChar 1 none true, .lit "Procuring".data]
            [.alt [.lit ['\n']] [.eosNL]]]]] ]

/-- comp2.py line 270 (DOTALL): Listing Broker s+ (lazy .*?) then
(Procuring Broker | Buyer/Tenant | end-of-string). -/
def broker_re : List RE :=
  [ .lit "Listing Broker".data, .cls isWsChar 1 none true,
    .grp 1 [.cls (fun _ => true) 0 none false],
    .alt [.lit "Procuring Broker".data] [.alt [.lit "Buyer/Tenant".data] [.eosNL]] ]

/-- comp2.py line 288: email pattern [w.-]+ @ [w.-]+ . w+. -/
def email_re : List RE :=
  [ .cls (fun c => isWordChar c || c == '.' || c == '-') 1 none true, .lit ['@'],
    .cls (fun c => isWordChar c || c == '.' || c == '-') 1 none true, .lit ['.'],
    .cls isWordChar 1 none true ]

/-- comp2.py line 293: phone pattern (ddd [.-]? ddd [.-]? dddd). -/
def phone_re : List RE :=
  [ .grp 1 [.cls isDigitChar 3 (some 3) true, .cls (fun c => c == '.' || c == '-') 0 (some 1) true,
            .cls isDigitChar 3 (some 3) true, .cls (fun c => c == '.' || c == '-') 0 (some 1) true,
            .cls isDigitChar 4 (some 4) true] ]

/-- comp2.py line 301, anchored re.match of [d.-]+ up to end-of-string. -/
def numline_re : List RE :=
  [ .cls (fun c => c.isDigit || c == '.' || c == '-') 1 none true, .eosNL ]

/-! ## Data model (comp2.py CompProperty) -/

/-- comp2.py lines 19-44: the record of one comparable property.  Every
text field defaults to the empty string and the image reference is
optional, exactly as in the dataclass. -/
structure CompProperty where
  comp_number : Nat
  property_name : Str := []
  primary_use : Str := []
  address : Str := []
  market : Str := []
  sub_market : Str := []
  comp_sf : Str := []
  acres : Str := []
  sale_price : Str := []
  sale_price_sf : Str := []
  sale_price_acres : Str := []
  zoning : Str := []
  parcel_number : Str := []
  off_market_date : Str := []
  months_on_market : Str := []
  topography : Str := []
  seller_landlord : Str := []
  buyer_tenant : Str := []
  listing_broker : Str := []
  listing_broker_company : Str := []
  listing_broker_phone : Str := []
  listing_broker_email : Str := []
  image_path : Option Str := none
deriving DecidableEq

/-! ## Text normalizer (comp2.py _clean_pdf_text) -/

/-- comp2.py lines 92-100: four re.sub passes with empty replacements. -/
def _clean_pdf_text (text : Str) : Str :=
  reSubAll clean4_re (reSubAll clean3_re (reSubAll clean2_re (reSubAll clean1_re text)))

/-! ## Field extraction (comp2.py) -/

/-- Colon run, for re.sub(colon+, empty) inside _extract_clean_field. -/
def colonrun_re : List RE := [.cls (fun c => c == ':') 1 none true]

/-- Trailing-SF pattern s* SF s* end (comp2.py line 240, no flags). -/
def sftail_re : List RE :=
  [.cls isWsChar 0 none true, .lit "SF".data, .cls isWsChar 0 none true, .eosNL]

/-- Trailing-Acres pattern s* Acres s* end (comp2.py line 241, no flags). -/
def acrestail_re : List RE :=
  [.cls isWsChar 0 none true, .lit "Acres".data, .cls isWsChar 0 none true, .eosNL]

/-- comp2.py lines 230-243: search the pattern, then strip, drop braces,
drop colons, drop a redundant trailing SF or Acres, and strip again. -/
def _extract_clean_field (text : Str) (re : List RE) : Str :=
  match reSearch re text with
  | some m =>
    let v := pyStrip ((grpGet m.caps 1).getD [])
    let v := v.filter (fun c => c != '\x7b')
    let v := v.filter (fun c => c != '\x7d')
    let v := reSubAll colonrun_re v
    let v := reSubAll sftail_re v
    let v := reSubAll acrestail_re v
    pyStrip v
  | none => []

/-- comp2.py lines 213-216: the field labels excluded from address lines. -/
def addressLabels : List Str :=
  [ "Comp SF:".data, "Acres:".data, "Sale Price:".data, "Zoning:".data,
    "Parcel #:".data, "Off-Market:".data, "Lot Dimensions:".data,
    "Legal Description:".data, "Gas:".data, "Water:".data, "Sewer:".data,
    "Power:".data, "Rail Status:".data, "Topography:".data ]

/-- comp2.py lines 198-217: scan stripped lines, arming capture after a
Primary Use: line, stopping at a Market: line, and collecting nonempty
lines that are not known field labels. -/
def collectAddrLines : List Str → Bool → List Str
  | [], _ => []
  | l :: ls, inSec =>
    let line := pyStrip l
    if containsSub "Primary Use:".data line then collectAddrLines ls true
    else if containsSub "Market:".data line then []
    else if inSec && !line.isEmpty
        && !(addressLabels.any (fun lab => containsSub lab line)) then
      line :: collectAddrLines ls inSec
    else collectAddrLines ls inSec

/-- comp2.py line 224, the street-type words of the address heuristic. -/
def streetWords : List Str :=
  [ "Street".data, "St".data, "Avenue".data, "Ave".data, "Road".data, "Rd".data,
    "Drive".data, "Dr".data, "Lane".data, "Ln".data, "Way".data, "Blvd".data,
    "Boulevard".data ]

/-- One street word matches case-insensitively at the front of s with a
word boundary after it. -/
def streetWordAt (s : Str) : Bool :=
  streetWords.any fun w =>
    listLowerEq w (s.take w.length) &&
      (match (s.drop w.length).head? with
       | some c => !isWordChar c
       | none => true)

/-- comp2.py line 224: word-boundary search for a street-type word,
IGNORECASE.  The boundary before the word requires the previous character
to be a non-word character (or the start of the line); the boundary after
is checked in streetWordAt. -/
def hasStreetWordGo : Str → Option Char → Bool
  | [], _ => false
  | c :: cs, prev =>
    ((match prev with | some p => !isWordChar p | none => true) && streetWordAt (c :: cs))
      || hasStreetWordGo cs (some c)

def hasStreetWord (s : Str) : Bool := hasStreetWordGo s none

/-- comp2.py lines 221-226: a line looks address-like when it contains a
digit (re.search of d+), a street-type word, or a city-state-zip tail. -/
def looksLikeAddr (line : Str) : Bool :=
  line.any Char.isDigit || hasStreetWord line || (reSearch cityzip_re line).isSome

/-- comp2.py lines 186-228: full-address regex first, else collect up to
three address-like lines between Primary Use: and Market: and join them
with spaces. -/
def _extract_address (text : Str) : Str :=
  match reSearch fulladdr_re text with
  | some m => pyStrip ((grpGet m.caps 1).getD [])
  | none =>
    let address_lines := collectAddrLines (splitNL text) false
    let final := (address_lines.take 3).filter looksLikeAddr
    pyStrip (joinSpace final)

/-- comp2.py lines 254 and 280: the label words filtered out of party and
company values. -/
def partyFilterWords : List Str :=
  ["role".data, "company".data, "name".data, "phone".data, "email".data]

/-- comp2.py lines 245-263: first the newline-separated pattern with a
label-word filter, then the single-line alternative pattern. -/
def _extract_party (text pt : Str) : Str :=
  let viaFirst : Option Str :=
    match reSearch (party1_re pt) text with
    | some m =>
      let party_name := pyStrip ((grpGet m.caps 1).getD [])
      if !party_name.isEmpty
          && !(partyFilterWords.any fun w => containsSub w (lowerStr party_name)) then
        some party_name
      else none
    | none => none
  match viaFirst with
  | some v => v
  | none =>
    match reSearch (party2_re pt) text with
    | some m => pyStrip ((grpGet m.caps 1).getD [])
    | none => []

/-- Broker data collected by comp2.py _extract_broker_info; a field is
none exactly when the corresponding dict key is absent. -/
structure BrokerInfo where
  name : Option Str := none
  company : Option Str := none
  phone : Option Str := none
  email : Option Str := none
deriving DecidableEq

/-- Python truthiness of the broker dict. -/
def BrokerInfo.filled (b : BrokerInfo) : Bool :=
  b.name.isSome || b.company.isSome || b.phone.isSome || b.email.isSome

/-- comp2.py lines 298 and 284-306 label words for the broker name rule. -/
def brokerNameFilterWords : List Str :=
  ["role".data, "company".data, "phone".data, "email".data, "listing".data, "procuring".data]

/-- comp2.py lines 284-305: per-line accumulation of email, phone and
name, each set at most once, in source order. -/
def brokerLineFold (info : BrokerInfo) (rawLine : Str) : BrokerInfo :=
  let line := pyStrip rawLine
  let info :=
    match reSearch email_re line with
    | some m => if info.email.isNone then { info with email := some m.matched } else info
    | none => info
  let info :=
    match reSearch phone_re line with
    | some m =>
      if info.phone.isNone then { info with phone := some ((grpGet m.caps 1).getD []) } else info
    | none => info
  if !(brokerNameFilterWords.any fun w => containsSub w (lowerStr line))
      && info.name.isNone
      && !line.isEmpty
      && !(mtchAt numline_re line).isSome
      && !(containsSub ['@'] line) then
    if containsSub [' '] line
        || (match line.head? with | some c => c.isUpper && decide (2 < line.length) | none => false) then
      { info with name := some line }
    else info
  else info

/-- comp2.py lines 265-307: locate the Listing Broker section, take the
first line as the company (subject to the label-word filter) and fold the
remaining lines. -/
def _extract_broker_info (text : Str) : BrokerInfo :=
  match reSearch broker_re text with
  | none => {}
  | some m =>
    let broker_text := (grpGet m.caps 1).getD []
    let lines := splitNL broker_text
    let info : BrokerInfo := {}
    let info :=
      match lines.head? with
      | some l0 =>
        let company := pyStrip l0
        if !company.isEmpty
            && !(partyFilterWords.any fun w => containsSub w (lowerStr company)) then
          { info with company := some company }
        else info
      | none => info
    (lines.drop 1).foldl brokerLineFold info

/-- comp2.py lines 131-184: one record from one section of text.  The
model is total: no regex interpreter step can fail, so the except branch
that drops a record is unreachable and the function always returns the
assembled record. -/
def _parse_single_comp (text : Str) (comp_num : Nat) : CompProperty :=
  let property_name :=
    match reSearch sysid_re text with
    | some m => pyStrip ((grpGet m.caps 1).getD [])
    | none => []
  let primary_use :=
    match reSearch primaryuse_re text with
    | some m => pyStrip ((grpGet m.caps 1).getD [])
    | none => []
  let address := _extract_address text
  let (market, sub_market) :=
    match reSearch market_re text with
    | some m =>
      (pyStrip ((grpGet m.caps 1).getD []),
       match grpGet m.caps 2 with
       | some v => if v.isEmpty then [] else pyStrip v
       | none => [])
    | none => ([], [])
  let broker := _extract_broker_info text
  { comp_number := comp_num
    property_name := property_name
    primary_use := primary_use
    address := address
    market := market
    sub_market := sub_market
    comp_sf := _extract_clean_field text compsf_re
    acres := _extract_clean_field text acres_re
    sale_price := _extract_clean_field text saleprice_re
    sale_price_sf := _extract_clean_field text salepricesf_re
    sale_price_acres := _extract_clean_field text salepriceacres_re
    zoning := _extract_clean_field text zoning_re
    parcel_number := _extract_clean_field text parcel_re
    off_market_date := _extract_clean_field text offmarket_re
    months_on_market := _extract_clean_field text months_re
    topography := _extract_clean_field text topo_re
    seller_landlord := _extract_party text "Seller/Landlord".data
    buyer_tenant := _extract_party text "Buyer/Tenant".data
    listing_broker := if broker.filled then broker.name.getD [] else []
    listing_broker_company := if broker.filled then broker.company.getD [] else []
    listing_broker_phone := if broker.filled then broker.phone.getD [] else []
    listing_broker_email := if broker.filled then broker.email.getD [] else [] }

/-! ## Record segmentation (comp2.py _parse_all_comps) -/

/-- All matches of the heading pattern, Python re.finditer: scan from the
left, and continue after the end of each match.  Each element is
(start offset, captured ordinal, end offset).  Fuel as in reSubAllGo:
one unit per step, each step consumes at least one character. -/
def findHeadingsGo : Nat → Str → Nat → List (Nat × Nat × Nat)
  | 0, _, _ => []
  | _ + 1, [], _ => []
  | fuel + 1, c :: cs, off =>
    match mtchAt comp_pattern (c :: cs) with
    | some (rest, caps) =>
      let len := (c :: cs).length - rest.length
      let num := natOfDigits ((grpGet caps 1).getD [])
      if rest.length < (c :: cs).length then
        (off, num, off + len) :: findHeadingsGo fuel rest (off + len)
      else (off, num, off + len) :: findHeadingsGo fuel cs (off + 1)
    | none => findHeadingsGo fuel cs (off + 1)

def findHeadings (s : Str) : List (Nat × Nat × Nat) :=
  findHeadingsGo (s.length + 1) s 0

/-- comp2.py lines 113-120: the section of each match runs from its start
offset to the start offset of the next match, or to the end of text. -/
def sectionsOf (text : Str) : List (Nat × Nat × Nat) → List (Nat × Str)
  | [] => []
  | (st, num, _) :: rest =>
    let en := match rest with | (st2, _, _) :: _ => st2 | [] => text.length
    (num, (text.drop st).take (en - st)) :: sectionsOf text rest

/-- comp2.py lines 102-129: find every heading, cut the text into
sections, and parse each section. -/
def _parse_all_comps (text : Str) : List CompProperty :=
  (sectionsOf text (findHeadings text)).map fun pr => _parse_single_comp pr.2 pr.1

/-! ## Image association (comp2.py _extract_images_from_pdf) -/

/-- One embedded image of a PDF page: whether extract_image succeeds for
it, and its container format. -/
structure ImgSpec where
  extractOk : Bool
  ext : Str
deriving DecidableEq

/-- One PDF page: its text (used for heading detection) and its embedded
images in order. -/
structure PdfPage where
  text : Str
  images : List ImgSpec
deriving DecidableEq

/-- comp2.py lines 316-329: map every page to the index of the record it
belongs to.  A page with a heading opens the next record; a later page
without a heading belongs to the most recently opened record; pages
before the first heading stay unassigned. -/
def comp_page_map : List PdfPage → Nat → List (Option Nat)
  | [], _ => []
  | p :: ps, cur =>
    if (reSearch heading_simple_re p.text).isSome then some cur :: comp_page_map ps (cur + 1)
    else if 0 < cur then some (cur - 1) :: comp_page_map ps cur
    else none :: comp_page_map ps cur

/-- State of the image-extraction loop: the records, an abstract clock
counter (one tick per datetime.now() call), the files written as
(page index, image index) pairs, the attachment events as
(record index, page index, image index) triples, and the log lines. -/
structure ImgState where
  comps : List CompProperty
  counter : Nat
  saved : List (Nat × Nat)
  attached : List (Nat × Nat × Nat)
  log : List Str
deriving DecidableEq

def compNumAt (comps : List CompProperty) (i : Nat) : Nat :=
  (comps[i]?.map (fun c => c.comp_number)).getD 0

def setImage (comps : List CompProperty) (i : Nat) (path : Str) : List CompProperty :=
  match comps[i]? with
  | some c => comps.set i { c with image_path := some path }
  | none => comps

/-- comp2.py line 354: the timestamp-derived image filename; the wall
clock is abstracted by a stamp function of the tick counter. -/
def imageFileName (stamp : Nat → Str) (k num : Nat) (ext : Str) : Str :=
  "comp_".data ++ (toString num).data ++ ['_'] ++ stamp k ++ ['.'] ++ ext

def imgOkLog (num : Nat) : Str :=
  "Extracted image for comp ".data ++ (toString num).data

def imgErrLog (pageIdx imgIdx : Nat) : Str :=
  "Error extracting image ".data ++ (toString imgIdx).data
    ++ " on page ".data ++ (toString pageIdx).data

/-- comp2.py lines 343-364: the per-image loop of one owned page.  An
image is considered only while the owning record has no image yet; a
successful extraction saves the file, attaches it and logs; a failing
extraction only logs the error. -/
def procImgs (stamp : Nat → Str) (compIdx pageIdx : Nat) :
    List ImgSpec → Nat → ImgState → ImgState
  | [], _, st => st
  | img :: imgs, imgIdx, st =>
    let hasNo := match st.comps[compIdx]? with
      | some c => c.image_path.isNone
      | none => false
    let st :=
      if hasNo then
        if img.extractOk then
          let num := compNumAt st.comps compIdx
          let path := imageFileName stamp st.counter num img.ext
          { comps := setImage st.comps compIdx path
            counter := st.counter + 1
            saved := st.saved ++ [(pageIdx, imgIdx)]
            attached := st.attached ++ [(compIdx, pageIdx, imgIdx)]
            log := st.log ++ [imgOkLog num] }
        else { st with log := st.log ++ [imgErrLog pageIdx imgIdx] }
      else st
    procImgs stamp compIdx pageIdx imgs (imgIdx + 1) st

/-- comp2.py lines 332-341: the page loop; unassigned pages and record
indices beyond the record list are skipped. -/
def procPages (stamp : Nat → Str) :
    List (Option Nat × PdfPage) → Nat → ImgState → ImgState
  | [], _, st => st
  | (assign, page) :: rest, pageIdx, st =>
    let st :=
      match assign with
      | none => st
      | some compIdx =>
        if st.comps.length ≤ compIdx then st
        else procImgs stamp compIdx pageIdx page.images 0 st
    procPages stamp rest (pageIdx + 1) st

/-- comp2.py lines 309-369. -/
def _extract_images_from_pdf (stamp : Nat → Str) (pages : List PdfPage)
    (comps : List CompProperty) : ImgState :=
  procPages stamp ((comp_page_map pages 0).zip pages) 0 ⟨comps, 0, [], [], []⟩

/-! ## Replacement-map builder (comp2.py create_comp_replacements) -/

/-- Ordering used by Python sorted(comps, key=comp_number); sorted is a
stable comparison sort, modelled by the stable insertion sort. -/
instance : IsTotal CompProperty (fun a b => a.comp_number ≤ b.comp_number) :=
  ⟨fun a b => Nat.le_total a.comp_number b.comp_number⟩

instance : IsTrans CompProperty (fun a b => a.comp_number ≤ b.comp_number) :=
  ⟨fun _ _ _ h1 h2 => Nat.le_trans h1 h2⟩

/-- comp2.py line 384: sorted(comps, key=comp_number)[:6]. -/
def sortedSix (comps : List CompProperty) : List CompProperty :=
  (List.insertionSort (fun a b => a.comp_number ≤ b.comp_number) comps).take 6

/-- The template keyword for slot i and a field name. -/
def kwOf (i : Nat) (f : Str) : Str :=
  "\x7b\x7bcomp".data ++ (toString i).data ++ ['_'] ++ f ++ "\x7d\x7d".data

/-- comp2.py lines 421-425: the 22 field names emitted for an absent
slot; the present-slot assignments of lines 392-413 emit the same fields
in the same order. -/
def compFieldNames : List Str :=
  [ "number".data, "property_name".data, "address".data, "primary_use".data,
    "market".data, "sub_market".data, "comp_sf".data, "acres".data,
    "sale_price".data, "sale_price_sf".data, "sale_price_acres".data,
    "zoning".data, "parcel_number".data, "off_market_date".data,
    "months_on_market".data, "topography".data, "seller_landlord".data,
    "buyer_tenant".data, "listing_broker".data, "listing_broker_company".data,
    "listing_broker_phone".data, "listing_broker_email".data ]

/-- comp2.py lines 392-417: the keyword bindings of a populated slot; the
image keyword is appended only when the record carries an image path. -/
def presentSlot (i : Nat) (c : CompProperty) : List (Str × Str) :=
  [ (kwOf i "number".data, (toString c.comp_number).data),
    (kwOf i "property_name".data, c.property_name),
    (kwOf i "address".data, c.address),
    (kwOf i "primary_use".data, c.primary_use),
    (kwOf i "market".data, c.market),
    (kwOf i "sub_market".data, c.sub_market),
    (kwOf i "comp_sf".data, c.comp_sf),
    (kwOf i "acres".data, c.acres),
    (kwOf i "sale_price".data, c.sale_price),
    (kwOf i "sale_price_sf".data, c.sale_price_sf),
    (kwOf i "sale_price_acres".data, c.sale_price_acres),
    (kwOf i "zoning".data, c.zoning),
    (kwOf i "parcel_number".data, c.parcel_number),
    (kwOf i "off_market_date".data, c.off_market_date),
    (kwOf i "months_on_market".data, c.months_on_market),
    (kwOf i "topography".data, c.topography),
    (kwOf i "seller_landlord".data, c.seller_landlord),
    (kwOf i "buyer_tenant".data, c.buyer_tenant),
    (kwOf i "listing_broker".data, c.listing_broker),
    (kwOf i "listing_broker_company".data, c.listing_broker_company),
    (kwOf i "listing_broker_phone".data, c.listing_broker_phone),
    (kwOf i "listing_broker_email".data, c.listing_broker_email) ]
  ++ (match c.image_path with
      | some p => [(kwOf i "image".data, p)]
      | none => [])

/-- comp2.py lines 419-428: an absent slot binds every field keyword to
the empty string. -/
def absentSlot (i : Nat) : List (Str × Str) :=
  compFieldNames.map fun f => (kwOf i f, [])

/-- comp2.py lines 371-430.  The Python dict is modelled as the list of
bindings in insertion order; all emitted keys are distinct, so list
length and first-match lookup coincide with dict size and dict lookup. -/
def create_comp_replacements (comps : List CompProperty) : List (Str × Str) :=
  let sorted_comps := sortedSix comps
  [1, 2, 3, 4, 5, 6].flatMap fun i =>
    match sorted_comps[i - 1]? with
    | some c => presentSlot i c
    | none => absentSlot i

/-- Python dict .get(k): value of the first binding of k, if any. -/
def lookupRepl (kw : Str) (repl : List (Str × Str)) : Option Str :=
  (repl.find? fun kv => kv.1 == kw).map fun kv => kv.2

/-! ## Rich-text document model and substitution (comp2.py lines 432-524) -/

/-- Formatting attributes of a python-docx run; none models attribute
value None (inherited). -/
structure RunFmt where
  bold : Option Bool := none
  italic : Option Bool := none
  underline : Option Bool := none
  fontName : Option Str := none
  fontSize : Option Nat := none
deriving DecidableEq

/-- One python-docx run: text, formatting, and an optional inline
picture reference. -/
structure DocRun where
  text : Str
  fmt : RunFmt := {}
  picture : Option Str := none
deriving DecidableEq

/-- A paragraph owns an ordered list of runs. -/
abbrev Para := List DocRun

/-- A table owns rows of cells; each cell owns paragraphs. -/
structure DocTable where
  rows : List (List (List Para))
deriving DecidableEq

/-- A document: body paragraphs, tables, and the section header and
footer paragraphs. -/
structure Docx where
  paragraphs : List Para
  tables : List DocTable
  headerParas : List Para
  footerParas : List Para
deriving DecidableEq

/-- python-docx paragraph.text: concatenation of run texts. -/
def paraText (p : Para) : Str := (p.map fun r => r.text).flatten

/-- comp2.py lines 462-465: fold all bindings over the paragraph text,
tracking whether any keyword was seen (against the current text, exactly
as the loop does). -/
def replLoop (repl : List (Str × Str)) (t : Str) (has : Bool) : Str × Bool :=
  match repl with
  | [] => (t, has)
  | (kw, v) :: rest =>
    if containsSub kw t then replLoop rest (strReplaceAll kw v t) true
    else replLoop rest t has

/-- comp2.py lines 453-481 replace_in_paragraph: empty-text paragraphs
are left alone; with a single run the new text goes into that run; with
several runs every run is blanked and the whole text goes into the first
run, keeping only its formatting. -/
def replace_in_paragraph (repl : List (Str × Str)) (p : Para) : Para :=
  if (paraText p).isEmpty then p
  else
    let res := replLoop repl (paraText p) false
    if res.2 then
      match p with
      | [r] => [{ r with text := res.1 }]
      | [] => p
      | r :: rs => { r with text := res.1 } :: rs.map fun x => { x with text := [] }
    else p

/-- comp2.py lines 501-508: the paragraph text setter of python-docx
collapses the paragraph to one default-formatted run; then a picture run
is appended. -/
def procImagePara (kw path : Str) (p : Para) : Para :=
  [ { text := strReplaceAll kw [] (paraText p) },
    { text := [], picture := some path } ]

/-- comp2.py lines 495-510 for one slot index. -/
def imagePassOne (fe : Str → Bool) (repl : List (Str × Str)) (paras : List Para)
    (i : Nat) : List Para :=
  let kw := kwOf i "image".data
  let path := (lookupRepl kw repl).getD []
  if !path.isEmpty && fe path then
    paras.map fun p => if containsSub kw (paraText p) then procImagePara kw path p else p
  else paras

/-- comp2.py lines 495-510: the image pass only visits body paragraphs. -/
def imagePass (fe : Str → Bool) (repl : List (Str × Str)) (paras : List Para) : List Para :=
  [1, 2, 3, 4, 5, 6].foldl (imagePassOne fe repl) paras

/-- comp2.py lines 432-524 replace_keywords_in_document: body paragraphs
and table cell paragraphs are rewritten and image keywords handled in
body paragraphs; the section headers and footers are never visited.  The
filesystem test os.path.exists is abstracted by the fe parameter. -/
def replace_keywords_in_document (fe : Str → Bool) (doc : Docx)
    (comps : List CompProperty) : Docx :=
  let repl := create_comp_replacements comps
  let bodyParas := doc.paragraphs.map (replace_in_paragraph repl)
  let tables := doc.tables.map fun t =>
    ⟨t.rows.map fun row => row.map fun cell => cell.map (replace_in_paragraph repl)⟩
  let bodyParas := imagePass fe repl bodyParas
  { doc with paragraphs := bodyParas, tables := tables }

/-! ## both4.py substitution engine (lines 926-1033) -/

/-- both4.py line 930: replacement.replace(double hyphen, en dash). -/
def dashConv (v : Str) : Str := strReplaceAll "--".data "–".data v

/-- both4.py lines 944-953: the per-character formatting trace. -/
def charFmtsOf (p : Para) : List RunFmt :=
  p.flatMap fun r => r.text.map fun _ => r.fmt

/-- both4.py lines 933-937: replace inside the first run containing the
placeholder, keeping that run, and stop. -/
def firstRunReplace : Para → Str → Str → Option Para
  | [], _, _ => none
  | r :: rs, kw, repl =>
    if containsSub kw r.text then some ({ r with text := strReplaceAll kw repl r.text } :: rs)
    else (firstRunReplace rs kw repl).map fun p => r :: p

/-- both4.py lines 955-1002: the placeholder spans runs; clear the
paragraph and rebuild it as before-text, replacement, after-text, each
run carrying formatting recovered from the character trace exactly as the
source copies it (bold and italic for the outer runs; bold, italic,
underline and truthy font name and size for the replacement run). -/
def both4SlowPath (p : Para) (kw conv : Str) : Para :=
  let full := paraText p
  let cf := charFmtsOf p
  match findSub kw full with
  | none => p
  | some start =>
    let beforeRuns : Para :=
      if 0 < start then
        let fmt : RunFmt :=
          if !cf.isEmpty && start < cf.length then
            match cf[start - 1]? with
            | some fi => { bold := fi.bold, italic := fi.italic }
            | none => {}
          else {}
        [{ text := full.take start, fmt := fmt }]
      else []
    let replRun : DocRun :=
      match cf[start]? with
      | some fi =>
        { text := conv,
          fmt := { bold := fi.bold, italic := fi.italic, underline := fi.underline,
                   fontName := match fi.fontName with
                     | some fn => if fn.isEmpty then none else some fn
                     | none => none,
                   fontSize := match fi.fontSize with
                     | some n => if n == 0 then none else some n
                     | none => none } }
      | none => { text := conv }
    let afterText := full.drop (start + kw.length)
    let afterRuns : Para :=
      if !afterText.isEmpty then
        let fmt : RunFmt :=
          if !cf.isEmpty && start + kw.length < cf.length then
            match cf[start + kw.length]? with
            | some fi => { bold := fi.bold, italic := fi.italic }
            | none => {}
          else {}
        [{ text := afterText, fmt := fmt }]
      else []
    beforeRuns ++ [replRun] ++ afterRuns

/-- both4.py lines 926-1002 _replace_text_in_runs. -/
def _replace_text_in_runs (p : Para) (placeholder replacement : Str) : Para :=
  if containsSub placeholder (paraText p) then
    let conv := dashConv replacement
    match firstRunReplace p placeholder conv with
    | some p2 => p2
    | none =>
      if containsSub placeholder (paraText p) then both4SlowPath p placeholder conv
      else p
  else p

/-! ## Extraction entry point (comp2.py extract_comps_from_pdf) -/

/-- Input to extraction: either an unreadable source (opening raises) or
a readable list of pages. -/
inductive PdfSource where
  | unreadable : Str → PdfSource
  | readable : List PdfPage → PdfSource

/-- What the caller observes: the returned records, an exception reaching
the caller if any, and the log lines. -/
structure ExtractOutcome where
  comps : List CompProperty
  raised : Option Str
  log : List Str
deriving DecidableEq

/-- comp2.py lines 69-74: page texts joined with newlines, empty page
texts skipped. -/
def joinPageTexts (pages : List PdfPage) : Str :=
  pages.foldl (fun acc p => if p.text.isEmpty then acc else acc ++ p.text ++ ['\n']) []

/-- comp2.py lines 54-90 extract_comps_from_pdf: the whole body sits in a
try block whose except clause logs the error and falls through to return
the records collected so far, so an unreadable source yields a normal
return of the empty list with an error log line, and no exception ever
reaches the caller. -/
def extract_comps_from_pdf (stamp : Nat → Str) : PdfSource → ExtractOutcome
  | .unreadable msg =>
    { comps := [], raised := none,
      log := ["Error extracting data from PDF: ".data ++ msg] }
  | .readable pages =>
    let full_text := _clean_pdf_text (joinPageTexts pages)
    let comps := _parse_all_comps full_text
    let st := _extract_images_from_pdf stamp pages comps
    { comps := st.comps, raised := none, log := st.log }



/-! ## Concrete inputs and derived notions used by the claims -/

/-- True when none of the four banner patterns of _clean_pdf_text occurs
anywhere in s. -/
def bannerFree (s : Str) : Bool :=
  !(reFound clean1_re s || reFound clean2_re s || reFound clean3_re s || reFound clean4_re s)

/-- Text on which one re.sub pass of the banner remover splices together
a fresh banner occurrence. -/
def bannerSplice : Str := "Land Comp SummaLand Comp Summary Reportry Report".data

/-- A record with a given ordinal and all fields defaulted. -/
def ordRec (n : Nat) : CompProperty := { comp_number := n }

/-- The ordinal list [3, 1, 5, 2] of the testable property. -/
def ex3 : List CompProperty := [ordRec 3, ordRec 1, ordRec 5, ordRec 2]

/-- Seven records with descending ordinals, for the witness. -/
def ex7 : List CompProperty :=
  [ordRec 7, ordRec 6, ordRec 5, ordRec 4, ordRec 3, ordRec 2, ordRec 1]

/-- A single record carrying an image path. -/
def imgRec : CompProperty := { comp_number := 1, image_path := some "p.png".data }

/-- The input text of the testable-properties section of the spec. -/
def specSample : Str :=
  ("1. Sold Land Property (Vacant)\nSystem ID: 4821)\nOffice Building\nPrimary Use: Office\n123 Main St\nProvo, UT 84601\nMarket: Provo/Orem / Sub-Market: Central\nComp SF: 12,000 SF\nSale Price: $1,200,000\n2. Sold Land Space ...").data

/-- The composite replacement of comp2.py lines 462-465 as a fold. -/
def foldRepl (repl : List (Str × Str)) (t : Str) : Str :=
  repl.foldl (fun acc kv => strReplaceAll kv.1 kv.2 acc) t

/-- A bold single-run formatting. -/
def boldFmt : RunFmt := { bold := some true }

/-- A document whose only keyword occurrence sits in a section header. -/
def hdrDoc : Docx :=
  { paragraphs := [], tables := [],
    headerParas := [[⟨kwOf 1 "number".data, boldFmt, none⟩]],
    footerParas := [] }

/-- A document with one bold single-run body paragraph holding a keyword. -/
def bodyDoc : Docx :=
  { paragraphs := [[⟨"Comp: ".data ++ kwOf 1 "number".data, boldFmt, none⟩]],
    tables := [], headerParas := [], footerParas := [] }

/-- A record whose property name holds a double hyphen. -/
def dashRec : CompProperty := { comp_number := 1, property_name := "a--b".data }

/-- A body paragraph holding the matching keyword. -/
def dashDoc : Docx :=
  { paragraphs := [[⟨kwOf 1 "property_name".data, {}, none⟩]],
    tables := [], headerParas := [], footerParas := [] }

/-- A paragraph whose keyword spans two runs, for the witness. -/
def splitPara : Para :=
  [⟨"x\x7b\x7bk".data, {}, none⟩, ⟨"\x7d\x7d y".data, {}, none⟩]

/-- Number of attachment events of a given record index. -/
def attachCount (st : ImgState) (idx : Nat) : Nat :=
  st.attached.countP fun e => e.1 == idx

/-- Each record has at most one attachment event, and a record with an
attachment holds an image path. -/
def attachInv (st : ImgState) : Prop :=
  ∀ idx, attachCount st idx ≤ 1
    ∧ (1 ≤ attachCount st idx →
        (match st.comps[idx]? with
         | some c => c.image_path.isSome = true
         | none => False))

/-- A page carrying the first record heading and no image. -/
def hpage1 : PdfPage := ⟨"1. Sold Land Property".data, []⟩

/-- A page carrying the second record heading and two extractable images. -/
def hpage2 : PdfPage := ⟨"2. Sold Land Space".data, [⟨true, "png".data⟩, ⟨true, "jpg".data⟩]⟩

/-- Two records, for the concrete image-association scenario. -/
def twoComps : List CompProperty := [ordRec 1, ordRec 2]

/-- A concrete stamp function (the abstract clock). -/
def stamp0 : Nat → Str := fun k => (toString k).data

/-- A page without a heading, carrying one extractable image. -/
def coverPage : PdfPage := ⟨"Cover".data, [⟨true, "png".data⟩]⟩

/-! ## Helper lemmas -/

theorem reSubAllGo_id (re : List RE) :
    ∀ (fuel : Nat) (s : Str), reFound re s = false → reSubAllGo re fuel s = s := by
  intro fuel
  induction fuel with
  | zero => intro s _; cases s <;> rfl
  | succ n ih =>
    intro s h
    cases s with
    | nil => rfl
    | cons c cs =>
      simp only [reFound, Bool.or_eq_false_iff] at h
      obtain ⟨h1, h2⟩ := h
      cases hm : mtchAt re (c :: cs) with
      | some v => rw [hm] at h1; simp at h1
      | none => simp only [reSubAllGo, hm]; rw [ih cs h2]

theorem reSubAll_id (re : List RE) (s : Str) (h : reFound re s = false) :
    reSubAll re s = s :=
  reSubAllGo_id re s.length s h

theorem clean_id_of_bannerFree (s : Str) (h : bannerFree s = true) :
    _clean_pdf_text s = s := by
  simp only [bannerFree, Bool.not_eq_true', Bool.or_eq_false_iff] at h
  obtain ⟨⟨⟨h1, h2⟩, h3⟩, h4⟩ := h
  unfold _clean_pdf_text reSubAll
  rw [reSubAllGo_id _ _ _ h1, reSubAllGo_id _ _ _ h2, reSubAllGo_id _ _ _ h3,
    reSubAllGo_id _ _ _ h4]

theorem parse_all_comps_nil (t : Str) (h : findHeadings t = []) :
    _parse_all_comps t = [] := by
  simp [_parse_all_comps, h, sectionsOf]

theorem procPages_comps_nil (stamp : Nat → Str) :
    ∀ (l : List (Option Nat × PdfPage)) (n : Nat) (st : ImgState),
      st.comps = [] → (procPages stamp l n st).comps = [] := by
  intro l
  induction l with
  | nil => intro n st h; simpa [procPages] using h
  | cons hd tl ih =>
    intro n st h
    obtain ⟨assign, page⟩ := hd
    cases assign with
    | none => exact ih (n + 1) st h
    | some ci =>
      have hz : st.comps.length ≤ ci := by rw [h]; exact Nat.zero_le ci
      simp only [procPages, if_pos hz]
      exact ih (n + 1) st h

/-! ## Claim C7 (text normalizer idempotence) -/

/-- C7 counterexample: the normalizer is not idempotent; removing the
inner banner occurrence splices the surrounding fragments into a new
occurrence that only a second pass removes (first pass yields the banner
itself, second pass yields the empty string). -/
theorem C7_counterexample :
    _clean_pdf_text (_clean_pdf_text bannerSplice) ≠ _clean_pdf_text bannerSplice := by
  decide

/-- C7 (amended): the normalizer is idempotent on every input whose
first-pass output contains no occurrence of any of the four banner
patterns; in general a second pass can still change the text, because
one removal can splice together a fresh banner occurrence. -/
theorem C7_clean_idempotent_when_bannerFree (t : Str)
    (h : bannerFree (_clean_pdf_text t) = true) :
    _clean_pdf_text (_clean_pdf_text t) = _clean_pdf_text t :=
  clean_id_of_bannerFree (_clean_pdf_text t) h

/-- Witness for C7: a concrete text containing two banners satisfies the
hypothesis and the conclusion. -/
theorem C7_witness :
    bannerFree (_clean_pdf_text ("intro Land Comp Summary Report mid July 4, 2024 tail".data)) = true
      ∧ _clean_pdf_text (_clean_pdf_text ("intro Land Comp Summary Report mid July 4, 2024 tail".data))
          = _clean_pdf_text ("intro Land Comp Summary Report mid July 4, 2024 tail".data) :=
  ⟨by decide, C7_clean_idempotent_when_bannerFree _ (by decide)⟩

/-! ## Claim C5 (no headings: empty extraction, no exception) -/

/-- C5: whenever the record-heading pattern matches nowhere in the
cleaned joined page text, extraction returns the empty record list and no
exception reaches the caller (the model is total and the returned outcome
carries no raised error). -/
theorem C5_no_headings_empty (stamp : Nat → Str) (pages : List PdfPage)
    (h : findHeadings (_clean_pdf_text (joinPageTexts pages)) = []) :
    (extract_comps_from_pdf stamp (.readable pages)).comps = []
      ∧ (extract_comps_from_pdf stamp (.readable pages)).raised = none := by
  constructor
  · show (_extract_images_from_pdf stamp pages
        (_parse_all_comps (_clean_pdf_text (joinPageTexts pages)))).comps = []
    unfold _extract_images_from_pdf
    exact procPages_comps_nil stamp _ 0 _ (parse_all_comps_nil _ h)
  · rfl

/-- Witness for C5 at a concrete page list with no headings. -/
theorem C5_witness :
    findHeadings (_clean_pdf_text (joinPageTexts [⟨"hello world".data, []⟩])) = []
      ∧ (extract_comps_from_pdf (fun _ => []) (.readable [⟨"hello world".data, []⟩])).comps = []
      ∧ (extract_comps_from_pdf (fun _ => []) (.readable [⟨"hello world".data, []⟩])).raised = none := by
  refine ⟨by decide, ?_⟩
  exact C5_no_headings_empty (fun _ => []) [⟨"hello world".data, []⟩] (by decide)

/-! ## Claim C8 (unreadable input handling) -/

/-- C8 counterexample: on an unreadable source the extraction does not
abort and does not report the failure to the caller; it returns normally
with the empty record list (and only a log line), indistinguishable in
its return value from a successful extraction that found no records. -/
theorem C8_counterexample :
    (extract_comps_from_pdf (fun _ => []) (.unreadable "bad file".data)).raised = none
      ∧ (extract_comps_from_pdf (fun _ => []) (.unreadable "bad file".data)).comps = [] :=
  ⟨rfl, rfl⟩

/-- C8 (amended): when the input PDF is unreadable, the exception is
caught inside extract_comps_from_pdf, an error line is logged, and the
empty record list is returned normally; no error is reported to the
caller. -/
theorem C8_unreadable_recovered (stamp : Nat → Str) (msg : Str) :
    extract_comps_from_pdf stamp (.unreadable msg)
      = ⟨[], none, ["Error extracting data from PDF: ".data ++ msg]⟩ := rfl

/-! ## Claim C3 (six lowest ordinals, ascending) -/

/-- C3: the replacement-map builder keeps the six records with the lowest
ordinals, in ascending ordinal order (for fewer records, all of them, still
ascending); and on ordinals [3, 1, 5, 2] slots 1 to 4 are populated with
ordinals 1, 2, 3, 5 in order. -/
theorem C3_lowest_six_sorted :
    (∀ comps : List CompProperty,
        (sortedSix comps).length = min 6 comps.length
        ∧ ((sortedSix comps).map (fun c => c.comp_number)).Sorted (· ≤ ·)
        ∧ ∀ x ∈ sortedSix comps,
            ∀ y ∈ (List.insertionSort (fun a b => a.comp_number ≤ b.comp_number) comps).drop 6,
              x.comp_number ≤ y.comp_number)
    ∧ lookupRepl (kwOf 1 "number".data) (create_comp_replacements ex3) = some "1".data
    ∧ lookupRepl (kwOf 2 "number".data) (create_comp_replacements ex3) = some "2".data
    ∧ lookupRepl (kwOf 3 "number".data) (create_comp_replacements ex3) = some "3".data
    ∧ lookupRepl (kwOf 4 "number".data) (create_comp_replacements ex3) = some "5".data := by
  refine ⟨?_, by decide, by decide, by decide, by decide⟩
  intro comps
  have hsorted := List.sorted_insertionSort
    (fun a b : CompProperty => a.comp_number ≤ b.comp_number) comps
  refine ⟨?_, ?_, ?_⟩
  · unfold sortedSix
    rw [List.length_take,
      (List.perm_insertionSort (fun a b : CompProperty => a.comp_number ≤ b.comp_number) comps).length_eq]
  · exact List.Pairwise.map _ (fun a b h => h)
      (List.Pairwise.sublist (List.take_sublist 6 _) hsorted)
  · intro x hx y hy
    have hsplit : List.Pairwise (fun a b : CompProperty => a.comp_number ≤ b.comp_number)
        (List.take 6 (List.insertionSort (fun a b : CompProperty => a.comp_number ≤ b.comp_number) comps)
          ++ List.drop 6 (List.insertionSort (fun a b : CompProperty => a.comp_number ≤ b.comp_number) comps)) := by
      rw [List.take_append_drop]; exact hsorted
    exact (List.pairwise_append.mp hsplit).2.2 x hx y hy

/-- Witness for C3: at the seven-record input, a kept record is bounded
by a dropped one as the theorem demands. -/
theorem C3_witness : (ordRec 1).comp_number ≤ (ordRec 7).comp_number :=
  (C3_lowest_six_sorted.1 ex7).2.2 (ordRec 1) (by decide) (ordRec 7) (by decide)

/-! ## Claim C2 (replacement-map key count and coverage) -/

/-- C2 counterexample: with one record that has an image, the map holds
133 bindings, which is neither 6 times 22 (the emitted field names) nor
6 times 23 (the field names of the interface including image); and the
image keyword of the absent slot 2 is not bound at all, so not every
keyword of an absent slot is present. -/
theorem C2_counterexample :
    (create_comp_replacements [imgRec]).length = 133
      ∧ ¬ (create_comp_replacements [imgRec]).length = 6 * 22
      ∧ ¬ (create_comp_replacements [imgRec]).length = 6 * 23
      ∧ lookupRepl (kwOf 2 "image".data) (create_comp_replacements [imgRec]) = none :=
  ⟨by decide, by decide, by decide, by decide⟩

theorem create_len_aux (s : List CompProperty) (h : s.length ≤ 6) :
    ([1, 2, 3, 4, 5, 6].map (fun i =>
        (match s[i - 1]? with
          | some c => presentSlot i c
          | none => absentSlot i).length)).sum
      = 6 * 22 + s.countP (fun c => c.image_path.isSome) := by
  have hp : ∀ (i : Nat) (c : CompProperty),
      (presentSlot i c).length = 22 + (if c.image_path.isSome then 1 else 0) := by
    intro i c
    cases himg : c.image_path <;> simp [presentSlot, himg]
  have ha : ∀ i : Nat, (absentSlot i).length = 22 := by
    intro i; simp [absentSlot, compFieldNames]
  rcases s with _ | ⟨a, _ | ⟨b, _ | ⟨c, _ | ⟨d, _ | ⟨e, _ | ⟨f, _ | ⟨g, rest⟩⟩⟩⟩⟩⟩⟩
  · simp [ha]
  · simp [hp, ha, List.countP_cons] <;> split_ifs <;> omega
  · simp [hp, ha, List.countP_cons] <;> split_ifs <;> omega
  · simp [hp, ha, List.countP_cons] <;> split_ifs <;> omega
  · simp [hp, ha, List.countP_cons] <;> split_ifs <;> omega
  · simp [hp, ha, List.countP_cons] <;> split_ifs <;> omega
  · simp [hp, ha, List.countP_cons] <;> split_ifs <;> omega
  · simp at h

/-- C2 (amended): the replacement map always binds exactly 6 times 22
keys for the 22 text fields emitted per slot (every field keyword of
every slot, absent slots bound to the empty string), plus exactly one
extra image binding for each kept record that carries an image; an
image keyword of a slot without an image is not emitted. -/
theorem C2_replacement_map_keys (comps : List CompProperty) :
    (create_comp_replacements comps).length
        = 6 * 22 + (sortedSix comps).countP (fun c => c.image_path.isSome)
      ∧ ∀ i ∈ [1, 2, 3, 4, 5, 6], ∀ f ∈ compFieldNames,
          kwOf i f ∈ (create_comp_replacements comps).map Prod.fst := by
  have hlen : (sortedSix comps).length ≤ 6 := by
    unfold sortedSix; rw [List.length_take]; exact Nat.min_le_left _ _
  constructor
  · unfold create_comp_replacements
    rw [List.length_flatMap]
    exact create_len_aux (sortedSix comps) hlen
  · intro i hi f hf
    have hmem : kwOf i f ∈ (match (sortedSix comps)[i - 1]? with
        | some c => presentSlot i c
        | none => absentSlot i).map Prod.fst := by
      cases hcell : (sortedSix comps)[i - 1]? with
      | some c =>
        have hkeys : (presentSlot i c).map Prod.fst
            = compFieldNames.map (kwOf i)
              ++ (match c.image_path with
                  | some _ => [kwOf i "image".data]
                  | none => []) := by
          cases himg : c.image_path <;> simp [presentSlot, compFieldNames, himg]
        rw [hkeys]
        exact List.mem_append_left _ (List.mem_map_of_mem _ hf)
      | none =>
        simpa [absentSlot, List.map_map, Function.comp] using List.mem_map_of_mem (kwOf i) hf
    unfold create_comp_replacements
    rw [List.map_flatMap]
    exact List.mem_flatMap.mpr ⟨i, hi, hmem⟩

/-- Witness for C2: the key-count equation and a sample keyword
membership at the one-image input. -/
theorem C2_witness :
    (create_comp_replacements [imgRec]).length
        = 6 * 22 + (sortedSix [imgRec]).countP (fun c => c.image_path.isSome)
      ∧ kwOf 3 "address".data ∈ (create_comp_replacements [imgRec]).map Prod.fst :=
  ⟨(C2_replacement_map_keys [imgRec]).1,
   (C2_replacement_map_keys [imgRec]).2 3 (by decide) "address".data (by decide)⟩

/-! ## Claim C4 (extraction on the spec sample text) -/

/-- C4 evaluation at the failing input: extraction yields two records
(the second heading opens an empty record); the first record carries the
claimed property name, address, comp SF and sale price, but its market
is the single letter P and its sub-market is empty: the lazily captured
market group stops after one character because the Sub-Market tail of the
regex is fully optional, so the claimed values Provo/Orem and Central are
never produced. -/
theorem C4_extraction_at_spec_sample :
    ((_parse_all_comps specSample).map fun c => c.comp_number) = [1, 2]
    ∧ ((_parse_all_comps specSample).map fun c =>
        [c.property_name, c.market, c.sub_market, c.comp_sf, c.sale_price, c.address])
      = [["Office Building".data, "P".data, [], "12,000".data, "$1,200,000".data,
          "123 Main St Provo, UT 84601".data],
         [[], [], [], [], [], []]]
    ∧ containsSub "123 Main St".data "123 Main St Provo, UT 84601".data = true
    ∧ containsSub "Provo, UT 84601".data "123 Main St Provo, UT 84601".data = true :=
  ⟨by decide, by decide, by decide, by decide⟩

/-! ## String-replacement lemmas -/

theorem strReplaceAllGo_id (kw val : Str) :
    ∀ (fuel : Nat) (s : Str), containsSub kw s = false → strReplaceAllGo kw val fuel s = s := by
  intro fuel
  induction fuel with
  | zero => intro s _; cases s <;> rfl
  | succ n ih =>
    intro s h
    cases s with
    | nil => rfl
    | cons c cs =>
      simp only [containsSub, Bool.or_eq_false_iff] at h
      obtain ⟨h1, h2⟩ := h
      simp only [strReplaceAllGo, h1, Bool.and_false, Bool.false_eq_true, if_false]
      rw [ih cs h2]

theorem strReplaceAll_id (kw val s : Str) (h : containsSub kw s = false) :
    strReplaceAll kw val s = s :=
  strReplaceAllGo_id kw val s.length s h

theorem foldRepl_nil (repl : List (Str × Str)) : foldRepl repl [] = [] := by
  induction repl with
  | nil => rfl
  | cons kv rest ih =>
    simp only [foldRepl, List.foldl_cons]
    have : strReplaceAll kv.1 kv.2 [] = [] := rfl
    rw [this]
    exact ih

theorem replLoop_fst (repl : List (Str × Str)) :
    ∀ (t : Str) (b : Bool), (replLoop repl t b).1 = foldRepl repl t := by
  induction repl with
  | nil => intro t b; rfl
  | cons kv rest ih =>
    intro t b
    obtain ⟨kw, v⟩ := kv
    simp only [replLoop, foldRepl, List.foldl_cons]
    by_cases hc : containsSub kw t = true
    · rw [if_pos hc]; exact ih _ _
    · rw [if_neg hc, strReplaceAll_id kw v t (Bool.eq_false_iff.mpr hc)]
      exact ih t b

theorem replLoop_true (repl : List (Str × Str)) :
    ∀ t : Str, (replLoop repl t true).2 = true := by
  induction repl with
  | nil => intro t; rfl
  | cons kv rest ih =>
    intro t
    obtain ⟨kw, v⟩ := kv
    simp only [replLoop]
    by_cases hc : containsSub kw t = true
    · rw [if_pos hc]; exact ih _
    · rw [if_neg hc]; exact ih _

theorem replLoop_snd_false (repl : List (Str × Str)) :
    ∀ t : Str, (replLoop repl t false).2 = false → foldRepl repl t = t := by
  induction repl with
  | nil => intro t _; rfl
  | cons kv rest ih =>
    intro t h
    obtain ⟨kw, v⟩ := kv
    simp only [replLoop] at h
    by_cases hc : containsSub kw t = true
    · rw [if_pos hc] at h
      rw [replLoop_true] at h
      exact absurd h (by simp)
    · rw [if_neg hc] at h
      have hid : strReplaceAll kw v t = t := strReplaceAll_id kw v t (Bool.eq_false_iff.mpr hc)
      simp only [foldRepl, List.foldl_cons, hid]
      exact ih t h

theorem paraText_cons (r : DocRun) (rs : Para) : paraText (r :: rs) = r.text ++ paraText rs := by
  simp [paraText]

theorem paraText_append (p q : Para) : paraText (p ++ q) = paraText p ++ paraText q := by
  simp [paraText]

theorem paraText_blanked (rs : Para) :
    paraText (rs.map fun x => { x with text := ([] : Str) }) = [] := by
  induction rs with
  | nil => rfl
  | cons r rt ih => simpa [paraText_cons] using ih

/-- The paragraph text after replace_in_paragraph is always the full
keyword fold of the old paragraph text. -/
theorem replace_in_paragraph_text (repl : List (Str × Str)) (p : Para) :
    paraText (replace_in_paragraph repl p) = foldRepl repl (paraText p) := by
  unfold replace_in_paragraph
  by_cases he : (paraText p).isEmpty = true
  · rw [if_pos he]
    rw [List.isEmpty_iff.mp he, foldRepl_nil]
  · rw [if_neg he]
    by_cases hr : (replLoop repl (paraText p) false).2 = true
    · rw [if_pos hr]
      cases p with
      | nil => exact absurd (by simp [paraText]) he
      | cons r rs =>
        cases rs with
        | nil => simp [paraText_cons, paraText, replLoop_fst]
        | cons x xs =>
          rw [paraText_cons, paraText_blanked, replLoop_fst]
          simp
    · rw [if_neg hr]
      rw [replLoop_snd_false repl (paraText p) (Bool.eq_false_iff.mpr hr)]

/-- replace_in_paragraph only rewrites run texts: the number of runs and
the formatting and picture of each run are untouched. -/
theorem replace_in_paragraph_skel (repl : List (Str × Str)) (p : Para) :
    (replace_in_paragraph repl p).map (fun r => (r.fmt, r.picture))
      = p.map (fun r => (r.fmt, r.picture)) := by
  unfold replace_in_paragraph
  by_cases he : (paraText p).isEmpty = true
  · rw [if_pos he]
  · rw [if_neg he]
    by_cases hr : (replLoop repl (paraText p) false).2 = true
    · rw [if_pos hr]
      cases p with
      | nil => rfl
      | cons r rs =>
        cases rs with
        | nil => simp
        | cons x xs => simp [List.map_map]
    · rw [if_neg hr]

/-! ## Image-pass lemmas -/

theorem mem_sortedSix {x : CompProperty} {comps : List CompProperty}
    (h : x ∈ sortedSix comps) : x ∈ comps := by
  unfold sortedSix at h
  have h1 : x ∈ List.insertionSort (fun a b => a.comp_number ≤ b.comp_number) comps :=
    (List.take_sublist 6 _).mem h
  exact (List.perm_insertionSort _ comps).mem_iff.mp h1

/-- No field keyword of any slot coincides with an image keyword. -/
theorem kw_image_ne_field :
    ∀ i ∈ [1, 2, 3, 4, 5, 6], ∀ j ∈ [1, 2, 3, 4, 5, 6], ∀ f ∈ compFieldNames,
      ¬ kwOf j f = kwOf i "image".data := by decide

theorem slot_keys_noimg (comps : List CompProperty)
    (h : ∀ c ∈ comps, c.image_path = none) (i : Nat) :
    (match (sortedSix comps)[i - 1]? with
      | some c => presentSlot i c
      | none => absentSlot i).map Prod.fst
      = compFieldNames.map (kwOf i) := by
  cases hcell : (sortedSix comps)[i - 1]? with
  | some c =>
    have himg : c.image_path = none := h c (mem_sortedSix (List.getElem?_mem hcell))
    simp [presentSlot, compFieldNames, himg]
  | none => simp [absentSlot, List.map_map, Function.comp]

theorem create_keys_noimg (comps : List CompProperty)
    (h : ∀ c ∈ comps, c.image_path = none) :
    (create_comp_replacements comps).map Prod.fst
      = [1, 2, 3, 4, 5, 6].flatMap fun i => compFieldNames.map (kwOf i) := by
  unfold create_comp_replacements
  rw [List.map_flatMap]
  simp only [List.flatMap_cons, List.flatMap_nil, List.append_nil]
  rw [slot_keys_noimg comps h 1, slot_keys_noimg comps h 2, slot_keys_noimg comps h 3,
    slot_keys_noimg comps h 4, slot_keys_noimg comps h 5, slot_keys_noimg comps h 6]

theorem lookup_image_none (comps : List CompProperty)
    (h : ∀ c ∈ comps, c.image_path = none) (i : Nat) (hi : i ∈ [1, 2, 3, 4, 5, 6]) :
    lookupRepl (kwOf i "image".data) (create_comp_replacements comps) = none := by
  unfold lookupRepl
  rw [Option.map_eq_none']
  rw [List.find?_eq_none]
  intro kv hkv
  have hk : kv.1 ∈ [1, 2, 3, 4, 5, 6].flatMap fun j => compFieldNames.map (kwOf j) := by
    rw [← create_keys_noimg comps h]
    exact List.mem_map_of_mem _ hkv
  obtain ⟨j, hj, hkf⟩ := List.mem_flatMap.mp hk
  obtain ⟨f, hf, hkeq⟩ := List.mem_map.mp hkf
  simp only [beq_iff_eq]
  rw [← hkeq]
  exact kw_image_ne_field i hi j hj f hf

theorem imagePassOne_noop (fe : Str → Bool) (repl : List (Str × Str)) (paras : List Para)
    (i : Nat) (h : lookupRepl (kwOf i "image".data) repl = none) :
    imagePassOne fe repl paras i = paras := by
  simp [imagePassOne, h]

theorem imagePass_noop (fe : Str → Bool) (comps : List CompProperty) (paras : List Para)
    (h : ∀ c ∈ comps, c.image_path = none) :
    imagePass fe (create_comp_replacements comps) paras = paras := by
  unfold imagePass
  simp only [List.foldl_cons, List.foldl_nil]
  rw [imagePassOne_noop fe _ paras 1 (lookup_image_none comps h 1 (by decide)),
    imagePassOne_noop fe _ paras 2 (lookup_image_none comps h 2 (by decide)),
    imagePassOne_noop fe _ paras 3 (lookup_image_none comps h 3 (by decide)),
    imagePassOne_noop fe _ paras 4 (lookup_image_none comps h 4 (by decide)),
    imagePassOne_noop fe _ paras 5 (lookup_image_none comps h 5 (by decide)),
    imagePassOne_noop fe _ paras 6 (lookup_image_none comps h 6 (by decide))]

/-! ## Claim C1 (template substitution scope and formatting) -/

/-- C1 counterexample: rendering a document whose header paragraph holds
a recognized keyword leaves the header untouched: the literal token is
still present afterwards, because replace_keywords_in_document never
visits section headers or footers. -/
theorem C1_counterexample :
    containsSub (kwOf 1 "number".data)
      (paraText ((replace_keywords_in_document (fun _ => false) hdrDoc [ordRec 1]).headerParas.headD []))
      = true := by decide

/-- C1 (amended): rendering replaces keywords in body paragraphs and
table cells only — headers and footers are returned untouched; in every
processed paragraph the final text is the full replacement fold of the
old text (so no recognized token survives in the body), and the run
skeleton (count, formatting, pictures) of body paragraphs is preserved,
with the whole text moved into the first run when a paragraph has
several runs.  The hypothesis restricts to records without images, so
that the image pass is inert. -/
theorem C1_render_body_only (fe : Str → Bool) (doc : Docx) (comps : List CompProperty)
    (h : ∀ c ∈ comps, c.image_path = none) :
    (replace_keywords_in_document fe doc comps).headerParas = doc.headerParas
    ∧ (replace_keywords_in_document fe doc comps).footerParas = doc.footerParas
    ∧ (replace_keywords_in_document fe doc comps).paragraphs.map paraText
        = doc.paragraphs.map (fun p => foldRepl (create_comp_replacements comps) (paraText p))
    ∧ (replace_keywords_in_document fe doc comps).paragraphs.map (List.map (fun r => (r.fmt, r.picture)))
        = doc.paragraphs.map (List.map (fun r => (r.fmt, r.picture)))
    ∧ (replace_keywords_in_document fe doc comps).tables.map
          (fun t => t.rows.map (fun row => row.map (fun cell => cell.map paraText)))
        = doc.tables.map (fun t => t.rows.map (fun row => row.map (fun cell =>
            cell.map (fun p => foldRepl (create_comp_replacements comps) (paraText p))))) := by
  have hmain : replace_keywords_in_document fe doc comps
      = { paragraphs := imagePass fe (create_comp_replacements comps)
            (doc.paragraphs.map (replace_in_paragraph (create_comp_replacements comps))),
          tables := doc.tables.map fun t =>
            ⟨t.rows.map fun row => row.map fun cell =>
              cell.map (replace_in_paragraph (create_comp_replacements comps))⟩,
          headerParas := doc.headerParas,
          footerParas := doc.footerParas } := rfl
  rw [hmain, imagePass_noop fe comps _ h]
  refine ⟨rfl, rfl, ?_, ?_, ?_⟩
  · rw [List.map_map]
    exact List.map_congr_left fun p _ => replace_in_paragraph_text _ p
  · rw [List.map_map]
    exact List.map_congr_left fun p _ => replace_in_paragraph_skel _ p
  · rw [List.map_map]
    refine List.map_congr_left fun t _ => ?_
    simp only [Function.comp]
    show (t.rows.map fun row => row.map fun cell =>
        cell.map (replace_in_paragraph (create_comp_replacements comps))).map
          (fun row => row.map fun cell => cell.map paraText)
      = t.rows.map fun row => row.map fun cell =>
          cell.map fun p => foldRepl (create_comp_replacements comps) (paraText p)
    rw [List.map_map]
    refine List.map_congr_left fun row _ => ?_
    simp only [Function.comp]
    rw [List.map_map]
    refine List.map_congr_left fun cell _ => ?_
    simp only [Function.comp]
    rw [List.map_map]
    exact List.map_congr_left fun p _ => replace_in_paragraph_text _ p

/-- Witness for C1 at a concrete bold body paragraph. -/
theorem C1_witness :
    (replace_keywords_in_document (fun _ => false) bodyDoc [ordRec 1]).paragraphs.map paraText
      = bodyDoc.paragraphs.map
          (fun p => foldRepl (create_comp_replacements [ordRec 1]) (paraText p)) :=
  (C1_render_body_only (fun _ => false) bodyDoc [ordRec 1] (by decide)).2.2.1

/-! ## Claim C9 (double hyphen to en dash) -/

theorem containsSub_iff (n : Str) : ∀ h : Str, containsSub n h = true ↔ n <:+: h := by
  intro h
  induction h with
  | nil =>
    simp [containsSub, List.isPrefixOf_iff_prefix, List.prefix_nil, List.infix_nil]
  | cons c cs ih =>
    simp only [containsSub, Bool.or_eq_true, List.isPrefixOf_iff_prefix, ih,
      List.infix_cons_iff]

theorem strReplaceAllGo_infix_val (kw val : Str) (hkw : kw ≠ []) :
    ∀ (fuel : Nat) (s : Str), s.length ≤ fuel → containsSub kw s = true →
      val <:+: strReplaceAllGo kw val fuel s := by
  intro fuel
  induction fuel with
  | zero =>
    intro s hf hc
    have hs : s = [] := List.length_eq_zero.mp (Nat.le_zero.mp hf)
    subst hs
    have hpre : kw <+: [] := List.isPrefixOf_iff_prefix.mp hc
    exact absurd (List.prefix_nil.mp hpre) hkw
  | succ n ih =>
    intro s hf hc
    cases s with
    | nil =>
      have hpre : kw <+: [] := List.isPrefixOf_iff_prefix.mp hc
      exact absurd (List.prefix_nil.mp hpre) hkw
    | cons c cs =>
      by_cases hp : kw.isPrefixOf (c :: cs) = true
      · have hcond : (!kw.isEmpty && kw.isPrefixOf (c :: cs)) = true := by
          simp [hp, List.isEmpty_iff, hkw]
        simp only [strReplaceAllGo, hcond, if_true]
        exact (List.prefix_append val _).isInfix
      · have hcond : (!kw.isEmpty && kw.isPrefixOf (c :: cs)) = false := by
          simp [hp]
        simp only [strReplaceAllGo, hcond, Bool.false_eq_true, if_false]
        have hc2 : containsSub kw cs = true := by
          simp only [containsSub, Bool.or_eq_true] at hc
          rcases hc with h | h
          · exact absurd h hp
          · exact h
        have hlen : cs.length ≤ n := by
          simp only [List.length_cons] at hf; omega
        exact (ih cs hlen hc2).trans (List.suffix_cons c _).isInfix

theorem dash_go : ∀ (fuel : Nat) (s : Str), s.length ≤ fuel →
    ¬ ("--".data <:+: strReplaceAllGo "--".data "–".data fuel s)
    ∧ ((strReplaceAllGo "--".data "–".data fuel s).head? = some '-' → s.head? = some '-') := by
  intro fuel
  induction fuel with
  | zero =>
    intro s hf
    have hs : s = [] := List.length_eq_zero.mp (Nat.le_zero.mp hf)
    subst hs
    refine ⟨fun hinf => ?_, fun h => by simp [strReplaceAllGo] at h⟩
    have := List.infix_nil.mp hinf
    simp at this
  | succ n ih =>
    intro s hf
    cases s with
    | nil =>
      refine ⟨fun hinf => ?_, fun h => by simp [strReplaceAllGo] at h⟩
      have := List.infix_nil.mp hinf
      simp at this
    | cons c cs =>
      by_cases hp : ("--".data).isPrefixOf (c :: cs) = true
      · have hcond : (!("--".data).isEmpty && ("--".data).isPrefixOf (c :: cs)) = true := by
          simp [hp]
        simp only [strReplaceAllGo, hcond, if_true]
        have hlen : ((c :: cs).drop ("--".data).length).length ≤ n := by
          simp only [List.length_drop, List.length_cons] at *
          omega
        obtain ⟨ih1, ih2⟩ := ih _ hlen
        have hshape : ("–".data ++ strReplaceAllGo "--".data "–".data n ((c :: cs).drop ("--".data).length))
            = '–' :: strReplaceAllGo "--".data "–".data n ((c :: cs).drop ("--".data).length) := rfl
        rw [hshape]
        constructor
        · intro hinf
          rcases List.infix_cons_iff.mp hinf with hpre | htail
          · rcases List.cons_prefix_cons.mp hpre with ⟨hch, _⟩
            exact absurd hch (by decide)
          · exact ih1 htail
        · intro hh
          simp only [List.head?_cons, Option.some_inj] at hh
          exact absurd hh (by decide)
      · have hcond : (!("--".data).isEmpty && ("--".data).isPrefixOf (c :: cs)) = false := by
          simp [hp]
        simp only [strReplaceAllGo, hcond, Bool.false_eq_true, if_false]
        have hlen : cs.length ≤ n := by
          simp only [List.length_cons] at hf; omega
        obtain ⟨ih1, ih2⟩ := ih cs hlen
        constructor
        · intro hinf
          rcases List.infix_cons_iff.mp hinf with hpre | htail
          · rcases List.cons_prefix_cons.mp hpre with ⟨hch, hrest⟩
            obtain ⟨tl, htl⟩ := hrest
            have hhead : (strReplaceAllGo "--".data "–".data n cs).head? = some '-' := by
              rw [← htl]; rfl
            have hcs : cs.head? = some '-' := ih2 hhead
            cases cs with
            | nil => simp at hcs
            | cons d ds =>
              have hd : d = '-' := by simpa using hcs
              apply absurd _ ((Bool.not_eq_true _).mpr ((Bool.eq_false_iff).mpr hp))
              subst hd
              rw [← hch]
              simp [List.isPrefixOf]
          · exact ih1 htail
        · intro hh
          simp only [List.head?_cons, Option.some_inj] at hh
          simp [hh]

theorem firstRunReplace_text :
    ∀ (p : Para) (kw repl : Str) (p2 : Para), firstRunReplace p kw repl = some p2 →
      ∃ a b rt, paraText p2 = a ++ strReplaceAll kw repl rt ++ b ∧ containsSub kw rt = true := by
  intro p
  induction p with
  | nil => intro kw repl p2 h; simp [firstRunReplace] at h
  | cons r rs ih =>
    intro kw repl p2 h
    by_cases hc : containsSub kw r.text = true
    · rw [firstRunReplace, if_pos hc, Option.some_inj] at h
      refine ⟨[], paraText rs, r.text, ?_, hc⟩
      rw [← h, paraText_cons]
      simp
    · rw [firstRunReplace, if_neg hc, Option.map_eq_some'] at h
      obtain ⟨q, hq, hp2⟩ := h
      obtain ⟨a, b, rt, hq2, hcq⟩ := ih kw repl q hq
      refine ⟨r.text ++ a, b, rt, ?_, hcq⟩
      rw [← hp2, paraText_cons, hq2]
      simp [List.append_assoc]

theorem findSub_of_contains (kw : Str) :
    ∀ s : Str, containsSub kw s = true → ∃ n, findSub kw s = some n := by
  intro s
  induction s with
  | nil =>
    intro h
    exact ⟨0, by simp only [findSub, if_pos (show kw.isPrefixOf [] = true from h)]⟩
  | cons c cs ih =>
    intro h
    by_cases hp : kw.isPrefixOf (c :: cs) = true
    · exact ⟨0, by simp [findSub, hp]⟩
    · have h2 : containsSub kw cs = true := by
        simp only [containsSub, Bool.or_eq_true] at h
        rcases h with h | h
        · exact absurd h hp
        · exact h
      obtain ⟨n, hn⟩ := ih h2
      exact ⟨n + 1, by simp [findSub, hp, hn]⟩

theorem both4Slow_infix (p : Para) (kw conv : Str) (st : Nat)
    (h : findSub kw (paraText p) = some st) :
    conv <:+: paraText (both4SlowPath p kw conv) := by
  simp only [both4SlowPath, h]
  rw [paraText_append, paraText_append]
  have hmid : paraText [(match (charFmtsOf p)[st]? with
      | some fi =>
        { text := conv,
          fmt := { bold := fi.bold, italic := fi.italic, underline := fi.underline,
                   fontName := match fi.fontName with
                     | some fn => if fn.isEmpty then none else some fn
                     | none => none,
                   fontSize := match fi.fontSize with
                     | some n => if n == 0 then none else some n
                     | none => none } }
      | none => { text := conv } : DocRun)] = conv := by
    cases hcf : (charFmtsOf p)[st]? <;> simp [paraText]
  rw [hmid]
  exact List.infix_append _ _ _

/-- C9 (amended): the both4.py substitution path converts every literal
double hyphen in the replacement value to an en dash before inserting it
(the inserted text, with the conversion applied, occurs in the resulting
paragraph and is free of double hyphens); the comp2.py comp-keyword path
performs no such conversion and inserts values verbatim, as the
counterexample shows. -/
theorem C9_both4_converts (p : Para) (kw v : Str) (hkw : kw ≠ [])
    (h : containsSub kw (paraText p) = true) :
    dashConv v <:+: paraText (_replace_text_in_runs p kw v)
    ∧ ¬ ("--".data <:+: dashConv v) := by
  constructor
  · unfold _replace_text_in_runs
    rw [if_pos h]
    show dashConv v <:+:
      paraText (match firstRunReplace p kw (dashConv v) with
        | some p2 => p2
        | none =>
          if containsSub kw (paraText p) = true then both4SlowPath p kw (dashConv v) else p)
    cases hfr : firstRunReplace p kw (dashConv v) with
    | some p2 =>
      obtain ⟨a, b, rt, hpt, hcrt⟩ := firstRunReplace_text p kw (dashConv v) p2 hfr
      show dashConv v <:+: paraText p2
      rw [hpt]
      have hin : dashConv v <:+: strReplaceAll kw (dashConv v) rt :=
        strReplaceAllGo_infix_val kw (dashConv v) hkw rt.length rt (Nat.le_refl _) hcrt
      exact hin.trans (List.infix_append a _ b)
    | none =>
      show dashConv v <:+:
        paraText (if containsSub kw (paraText p) = true then both4SlowPath p kw (dashConv v) else p)
      rw [if_pos h]
      obtain ⟨st, hst⟩ := findSub_of_contains kw (paraText p) h
      exact both4Slow_infix p kw (dashConv v) st hst
  · exact (dash_go v.length v (Nat.le_refl _)).1

/-- C9 counterexample: the comp2.py substitution engine inserts the
value a--b verbatim; the rendered body paragraph still contains a literal
double hyphen, so not every text replacement performed by the engine
converts double hyphens to en dashes. -/
theorem C9_counterexample :
    containsSub "--".data
      (paraText ((replace_keywords_in_document (fun _ => false) dashDoc [dashRec]).paragraphs.headD []))
      = true := by decide

/-- Witness for C9 on the both4.py path at a concrete input. -/
theorem C9_witness :
    dashConv "a--b".data <:+: paraText (_replace_text_in_runs splitPara "\x7b\x7bk\x7d\x7d".data "a--b".data)
    ∧ ¬ ("--".data <:+: dashConv "a--b".data) :=
  C9_both4_converts splitPara "\x7b\x7bk\x7d\x7d".data "a--b".data (by decide) (by decide)

/-! ## Image-association lemmas (claims C6 and C10) -/

theorem procImgs_saved_mem (stamp : Nat → Str) (ci pi : Nat) :
    ∀ (imgs : List ImgSpec) (k : Nat) (st : ImgState),
      ∀ e ∈ (procImgs stamp ci pi imgs k st).saved, e ∈ st.saved ∨ e.1 = pi := by
  intro imgs
  induction imgs with
  | nil => intro k st e he; exact Or.inl he
  | cons img rest ih =>
    intro k st e he
    simp only [procImgs] at he
    by_cases h1 : (match st.comps[ci]? with
        | some c => c.image_path.isNone
        | none => false) = true
    · rw [if_pos h1] at he
      by_cases h2 : img.extractOk = true
      · rw [if_pos h2] at he
        rcases ih (k + 1) _ e he with hin | hpi
        · rcases List.mem_append.mp hin with h | h
          · exact Or.inl h
          · exact Or.inr (by rw [List.mem_singleton.mp h])
        · exact Or.inr hpi
      · rw [if_neg h2] at he
        rcases ih (k + 1) _ e he with hin | hpi
        · exact Or.inl hin
        · exact Or.inr hpi
    · rw [if_neg h1] at he
      exact ih (k + 1) st e he

theorem procImgs_attached_mem (stamp : Nat → Str) (ci pi : Nat) :
    ∀ (imgs : List ImgSpec) (k : Nat) (st : ImgState),
      ∀ e ∈ (procImgs stamp ci pi imgs k st).attached,
        e ∈ st.attached ∨ (e.1 = ci ∧ e.2.1 = pi) := by
  intro imgs
  induction imgs with
  | nil => intro k st e he; exact Or.inl he
  | cons img rest ih =>
    intro k st e he
    simp only [procImgs] at he
    by_cases h1 : (match st.comps[ci]? with
        | some c => c.image_path.isNone
        | none => false) = true
    · rw [if_pos h1] at he
      by_cases h2 : img.extractOk = true
      · rw [if_pos h2] at he
        rcases ih (k + 1) _ e he with hin | hpi
        · rcases List.mem_append.mp hin with h | h
          · exact Or.inl h
          · exact Or.inr (by rw [List.mem_singleton.mp h]; exact ⟨rfl, rfl⟩)
        · exact Or.inr hpi
      · rw [if_neg h2] at he
        rcases ih (k + 1) _ e he with hin | hpi
        · exact Or.inl hin
        · exact Or.inr hpi
    · rw [if_neg h1] at he
      exact ih (k + 1) st e he

theorem procPages_mem (stamp : Nat → Str) :
    ∀ (l : List (Option Nat × PdfPage)) (n : Nat) (st : ImgState),
      (∀ e ∈ (procPages stamp l n st).saved,
          e ∈ st.saved ∨ ∃ j x, l[j]? = some x ∧ x.1.isSome = true ∧ e.1 = n + j)
      ∧ (∀ e ∈ (procPages stamp l n st).attached,
          e ∈ st.attached ∨ ∃ j x, l[j]? = some x ∧ x.1 = some e.1 ∧ e.2.1 = n + j) := by
  intro l
  induction l with
  | nil => intro n st; exact ⟨fun e he => Or.inl he, fun e he => Or.inl he⟩
  | cons hd tl ih =>
    intro n st
    obtain ⟨assign, page⟩ := hd
    constructor
    · intro e he
      cases assign with
      | none =>
        simp only [procPages] at he
        rcases (ih (n + 1) st).1 e he with hin | ⟨j, x, hx, hs, hp⟩
        · exact Or.inl hin
        · exact Or.inr ⟨j + 1, x, by simpa using hx, hs, by omega⟩
      | some ci =>
        simp only [procPages] at he
        by_cases hlen : st.comps.length ≤ ci
        · rw [if_pos hlen] at he
          rcases (ih (n + 1) st).1 e he with hin | ⟨j, x, hx, hs, hp⟩
          · exact Or.inl hin
          · exact Or.inr ⟨j + 1, x, by simpa using hx, hs, by omega⟩
        · rw [if_neg hlen] at he
          rcases (ih (n + 1) _).1 e he with hin | ⟨j, x, hx, hs, hp⟩
          · rcases procImgs_saved_mem stamp ci n page.images 0 st e hin with h | h
            · exact Or.inl h
            · exact Or.inr ⟨0, (some ci, page), by simp, by simp, by omega⟩
          · exact Or.inr ⟨j + 1, x, by simpa using hx, hs, by omega⟩
    · intro e he
      cases assign with
      | none =>
        simp only [procPages] at he
        rcases (ih (n + 1) st).2 e he with hin | ⟨j, x, hx, hs, hp⟩
        · exact Or.inl hin
        · exact Or.inr ⟨j + 1, x, by simpa using hx, hs, by omega⟩
      | some ci =>
        simp only [procPages] at he
        by_cases hlen : st.comps.length ≤ ci
        · rw [if_pos hlen] at he
          rcases (ih (n + 1) st).2 e he with hin | ⟨j, x, hx, hs, hp⟩
          · exact Or.inl hin
          · exact Or.inr ⟨j + 1, x, by simpa using hx, hs, by omega⟩
        · rw [if_neg hlen] at he
          rcases (ih (n + 1) _).2 e he with hin | ⟨j, x, hx, hs, hp⟩
          · rcases procImgs_attached_mem stamp ci n page.images 0 st e hin with h | ⟨hci, hpi⟩
            · exact Or.inl h
            · exact Or.inr ⟨0, (some ci, page), by simp, by simp [hci], by omega⟩
          · exact Or.inr ⟨j + 1, x, by simpa using hx, hs, by omega⟩

theorem procImgs_inv (stamp : Nat → Str) (ci pi : Nat) :
    ∀ (imgs : List ImgSpec) (k : Nat) (st : ImgState),
      attachInv st → attachInv (procImgs stamp ci pi imgs k st) := by
  intro imgs
  induction imgs with
  | nil => intro k st h; exact h
  | cons img rest ih =>
    intro k st hinv
    simp only [procImgs]
    by_cases h1 : (match st.comps[ci]? with
        | some c => c.image_path.isNone
        | none => false) = true
    · rw [if_pos h1]
      by_cases h2 : img.extractOk = true
      · rw [if_pos h2]
        apply ih
        obtain ⟨c, hcomps, hnone⟩ : ∃ c, st.comps[ci]? = some c ∧ c.image_path = none := by
          cases hc : st.comps[ci]? with
          | some c =>
            rw [hc] at h1
            exact ⟨c, rfl, Option.isNone_iff_eq_none.mp h1⟩
          | none => rw [hc] at h1; simp at h1
        have hlt : ci < st.comps.length := by
          by_contra hge
          rw [List.getElem?_eq_none (Nat.le_of_not_lt hge)] at hcomps
          exact absurd hcomps (by simp)
        have hcnt0 : attachCount st ci = 0 := by
          rcases Nat.eq_zero_or_pos (attachCount st ci) with h0 | hpos
          · exact h0
          · have hmem := (hinv ci).2 hpos
            simp only [hcomps] at hmem
            rw [hnone] at hmem
            simp at hmem
        intro idx
        have hset : setImage st.comps ci (imageFileName stamp st.counter (compNumAt st.comps ci) img.ext) = st.comps.set ci { c with image_path := some (imageFileName stamp st.counter (compNumAt st.comps ci) img.ext) } := by
          unfold setImage
          rw [hcomps]
        constructor
        · show (st.attached ++ [(ci, pi, k)]).countP (fun e => e.1 == idx) ≤ 1
          rw [List.countP_append]
          by_cases hidx : ci = idx
          · subst hidx
            have : ([((ci : Nat), pi, k)].countP fun e => e.1 == ci) = 1 := by simp
            rw [this]
            have h0 : st.attached.countP (fun e => e.1 == ci) = 0 := hcnt0
            omega
          · have : ([((ci : Nat), pi, k)].countP fun e => e.1 == idx) = 0 := by
              simp [hidx]
            rw [this]
            have := (hinv idx).1
            unfold attachCount at this
            omega
        · intro hge
          show (match (setImage st.comps ci
              (imageFileName stamp st.counter (compNumAt st.comps ci) img.ext))[idx]? with
            | some c => c.image_path.isSome = true
            | none => False)
          rw [hset]
          by_cases hidx : ci = idx
          · subst hidx
            rw [List.getElem?_set_self hlt]
            simp
          · rw [List.getElem?_set_ne hidx]
            apply (hinv idx).2
            have hsing : ([((ci : Nat), pi, k)].countP fun e => e.1 == idx) = 0 := by
              simp [hidx]
            unfold attachCount at hge ⊢
            rw [List.countP_append, hsing] at hge
            omega
      · rw [if_neg h2]
        apply ih
        intro idx
        exact hinv idx
    · rw [if_neg h1]
      exact ih (k + 1) st hinv

theorem procPages_inv (stamp : Nat → Str) :
    ∀ (l : List (Option Nat × PdfPage)) (n : Nat) (st : ImgState),
      attachInv st → attachInv (procPages stamp l n st) := by
  intro l
  induction l with
  | nil => intro n st h; exact h
  | cons hd tl ih =>
    intro n st hinv
    obtain ⟨assign, page⟩ := hd
    cases assign with
    | none =>
      simp only [procPages]
      exact ih (n + 1) st hinv
    | some ci =>
      simp only [procPages]
      by_cases hlen : st.comps.length ≤ ci
      · rw [if_pos hlen]; exact ih (n + 1) st hinv
      · rw [if_neg hlen]; exact ih (n + 1) _ (procImgs_inv stamp ci n page.images 0 st hinv)

theorem zip_getElem?_fst {α β : Type} :
    ∀ (a : List α) (b : List β) (j : Nat) (x : α × β),
      (a.zip b)[j]? = some x → a[j]? = some x.1 := by
  intro a
  induction a with
  | nil => intro b j x h; simp at h
  | cons ha ta ih =>
    intro b j x h
    cases b with
    | nil => simp at h
    | cons hb tb =>
      cases j with
      | zero =>
        simp only [List.zip_cons_cons, List.getElem?_cons_zero, Option.some_inj] at h
        rw [← h]
        simp
      | succ j =>
        simp only [List.zip_cons_cons, List.getElem?_cons_succ] at h ⊢
        exact ih tb j x h

/-! ## Claim C6 (image association invariants) -/

/-- C6 (amended): after image association, no image is attached to two
different records (two attachment events for the same page and image
index name the same record), and every record receives at most one
attachment event (so at most one image); later extractable images of a
record whose image is already set are skipped silently, without any log
entry, as the counterexample records. -/
theorem C6_image_invariants (stamp : Nat → Str) (pages : List PdfPage)
    (comps : List CompProperty) :
    (∀ e1 ∈ (_extract_images_from_pdf stamp pages comps).attached,
       ∀ e2 ∈ (_extract_images_from_pdf stamp pages comps).attached,
         e1.2 = e2.2 → e1.1 = e2.1)
    ∧ ∀ idx, attachCount (_extract_images_from_pdf stamp pages comps) idx ≤ 1 := by
  constructor
  · intro e1 he1 e2 he2 hpages
    have hm := (procPages_mem stamp ((comp_page_map pages 0).zip pages) 0
      ⟨comps, 0, [], [], []⟩).2
    rcases hm e1 he1 with hin | ⟨j1, x1, hx1, hs1, hp1⟩
    · simp at hin
    rcases hm e2 he2 with hin | ⟨j2, x2, hx2, hs2, hp2⟩
    · simp at hin
    have hj : j1 = j2 := by
      have : e1.2.1 = e2.2.1 := by rw [hpages]
      omega
    subst hj
    rw [hx1] at hx2
    have hx : x1 = x2 := Option.some_inj.mp hx2
    rw [hx] at hs1
    rw [hs1] at hs2
    exact Option.some_inj.mp hs2
  · intro idx
    have hstart : attachInv ⟨comps, 0, [], [], []⟩ := by
      intro i
      constructor
      · simp [attachCount]
      · intro hge
        simp [attachCount] at hge
    have := procPages_inv stamp ((comp_page_map pages 0).zip pages) 0
      ⟨comps, 0, [], [], []⟩ hstart
    exact (this idx).1

/-- C6 counterexample: with two extractable images on the page owned by
record 2, only the first image is attached, and the log holds exactly the
one success line for that first image: the discarded second image
produces no log entry, so it is not the case that each later image is
discarded and logged. -/
theorem C6_counterexample :
    (_extract_images_from_pdf stamp0 [hpage1, hpage2] twoComps).log = [imgOkLog 2]
    ∧ (_extract_images_from_pdf stamp0 [hpage1, hpage2] twoComps).attached = [(1, 1, 0)]
    ∧ (_extract_images_from_pdf stamp0 [hpage1, hpage2] twoComps).saved = [(1, 0)]
    ∧ ((_extract_images_from_pdf stamp0 [hpage1, hpage2] twoComps).comps.map
        fun c => c.image_path) = [none, some "comp_2_0.png".data]
    ∧ hpage2.images.length = 2 :=
  ⟨by decide, by decide, by decide, by decide, by decide⟩

/-- Witness for C6 at the concrete two-image scenario. -/
theorem C6_witness :
    ((1, 1, 0) : Nat × Nat × Nat).1 = ((1, 1, 0) : Nat × Nat × Nat).1
    ∧ attachCount (_extract_images_from_pdf stamp0 [hpage1, hpage2] twoComps) 1 ≤ 1 :=
  ⟨(C6_image_invariants stamp0 [hpage1, hpage2] twoComps).1
      (1, 1, 0) (by decide) (1, 1, 0) (by decide) rfl,
   (C6_image_invariants stamp0 [hpage1, hpage2] twoComps).2 1⟩

/-! ## Claim C10 (pages before the first heading own no images) -/

theorem comp_page_map_before :
    ∀ (pages : List PdfPage) (p : Nat),
      (∀ q, q ≤ p → ∀ pg, pages[q]? = some pg →
        (reSearch heading_simple_re pg.text).isSome = false) →
      p < pages.length → (comp_page_map pages 0)[p]? = some none := by
  intro pages
  induction pages with
  | nil => intro p _ hp; simp at hp
  | cons pg ps ih =>
    intro p h hp
    have h0 : (reSearch heading_simple_re pg.text).isSome = false :=
      h 0 (Nat.zero_le p) pg (by simp)
    simp only [comp_page_map, h0, Bool.false_eq_true, if_false, Nat.lt_irrefl,
      if_neg (Nat.lt_irrefl 0)]
    cases p with
    | zero => simp
    | succ p =>
      simp only [List.getElem?_cons_succ]
      exact ih p (fun q hq pg2 hpg2 => h (q + 1) (by omega) pg2 (by simpa using hpg2))
        (by simpa using hp)

/-- C10: a page that precedes the first page carrying a record heading is
assigned to no record, and no file is saved from it and no image of it is
attached to any record. -/
theorem C10_pages_before_first_heading (stamp : Nat → Str) (pages : List PdfPage)
    (comps : List CompProperty) (p : Nat)
    (h : ∀ q, q ≤ p → ∀ pg, pages[q]? = some pg →
      (reSearch heading_simple_re pg.text).isSome = false)
    (hp : p < pages.length) :
    (comp_page_map pages 0)[p]? = some none
    ∧ (∀ e ∈ (_extract_images_from_pdf stamp pages comps).saved, ¬ e.1 = p)
    ∧ (∀ e ∈ (_extract_images_from_pdf stamp pages comps).attached, ¬ e.2.1 = p) := by
  have hmap : (comp_page_map pages 0)[p]? = some none := comp_page_map_before pages p h hp
  refine ⟨hmap, ?_, ?_⟩
  · intro e he hep
    rcases (procPages_mem stamp ((comp_page_map pages 0).zip pages) 0
        ⟨comps, 0, [], [], []⟩).1 e he with hin | ⟨j, x, hx, hs, hpj⟩
    · simp at hin
    · have hj : j = p := by omega
      subst hj
      have hfst := zip_getElem?_fst _ _ _ _ hx
      rw [hmap] at hfst
      have hx1 : x.1 = none := by injection hfst with hh; rw [← hh]
      rw [hx1] at hs
      simp at hs
  · intro e he hep
    rcases (procPages_mem stamp ((comp_page_map pages 0).zip pages) 0
        ⟨comps, 0, [], [], []⟩).2 e he with hin | ⟨j, x, hx, hs, hpj⟩
    · simp at hin
    · have hj : j = p := by omega
      subst hj
      have hfst := zip_getElem?_fst _ _ _ _ hx
      rw [hmap] at hfst
      have hx1 : x.1 = none := by injection hfst with hh; rw [← hh]
      rw [hx1] at hs
      simp at hs

/-- Witness for C10: the cover page of a concrete document is unassigned
and none of its images are saved or attached. -/
theorem C10_witness :
    (comp_page_map [coverPage, hpage1] 0)[0]? = some none
    ∧ (∀ e ∈ (_extract_images_from_pdf stamp0 [coverPage, hpage1] twoComps).saved, ¬ e.1 = 0)
    ∧ (∀ e ∈ (_extract_images_from_pdf stamp0 [coverPage, hpage1] twoComps).attached,
        ¬ e.2.1 = 0) :=
  C10_pages_before_first_heading stamp0 [coverPage, hpage1] twoComps 0
    (by
      intro q hq pg hpg
      have hq0 : q = 0 := Nat.le_zero.mp hq
      subst hq0
      simp only [List.getElem?_cons_zero, Option.some_inj] at hpg
      rw [← hpg]
      decide)
    (by decide)

end PPCode
